import Mathlib

/-!
Verification of the scanning / tokenization / parsing core of simdjson-go.

Byte buffers are modelled as `List Nat`, one entry per byte (all inputs of
interest have entries < 256; none of the embedded routines depends on that
bound for the properties proved here).  Cursor positions (Go `int`) are
modelled as `Nat`; the token Start/End fields are `uint32` in the source, so
the cursor is reduced modulo 2^32 (`u32`) whenever it is stored into a
token, exactly as Go's `uint32(i)` conversion does.  Loops of the Go source
are embedded
as structurally recursive functions, either on the list being consumed or
on an explicit fuel argument that dominates the loop's strictly-decreasing
measure (each embedding notes its fuel choice next to the definition).
-/

namespace SimdJsonGo

/-- Embeds scanner.isWhitespace (scanner.go): space, tab, LF, CR. -/
def isWhitespace (c : Nat) : Bool :=
  c == 32 || c == 9 || c == 10 || c == 13

/-- Whether a byte is one of the 8 structural JSON bytes quote, backslash,
colon, comma, braces and brackets.  These are exactly the bytes given a
non-whitespace entry by Scanner.initCharClassifier (scanner.go). -/
def isStructuralByte (c : Nat) : Bool :=
  c == 34 || c == 92 || c == 58 || c == 44 ||
  c == 123 || c == 125 || c == 91 || c == 93

/-- Whether charClassifier[c] is nonzero: the 8 structural bytes together
with the 4 whitespace bytes (scanner.go, initCharClassifier). -/
def classifierNonzero (c : Nat) : Bool :=
  isStructuralByte c || isWhitespace c

/-- ASCII digit test, `c >= '0' && c <= '9'` in the source. -/
def isDigit (c : Nat) : Bool :=
  48 ≤ c && c ≤ 57

/-- Embeds the loop body of Scanner.scanScalar (scanner.go lines 92-129).
`data` is the whole buffer (needed for the look-behind at `buf[i-1]`),
the first list argument is the not-yet-processed suffix `data.drop i`,
`i` is the current index, and `acc` accumulates structural indices. -/
def scanScalarAux (data : List Nat) :
    List Nat → Nat → Bool → Bool → List Nat → List Nat
  | [], _, _, _, acc => acc
  | c :: rest, i, inString, escaped, acc =>
    if escaped then
      scanScalarAux data rest (i+1) inString false acc
    else if c == 92 && inString then
      scanScalarAux data rest (i+1) inString true acc
    else if c == 34 then
      scanScalarAux data rest (i+1) (!inString) false (acc ++ [i])
    else if !inString then
      if isStructuralByte c then
        scanScalarAux data rest (i+1) inString escaped (acc ++ [i])
      else if (!classifierNonzero c && isDigit c) || c == 45 ||
              c == 116 || c == 102 || c == 110 then
        -- start of a value (number, true, false, null): recorded only at a
        -- boundary, i.e. at offset 0 or after a classifier-nonzero byte
        -- (the source additionally re-tests the four whitespace bytes,
        -- which classifierNonzero already contains)
        if i == 0 || classifierNonzero (data.getD (i-1) 0) then
          scanScalarAux data rest (i+1) inString escaped (acc ++ [i])
        else
          scanScalarAux data rest (i+1) inString escaped acc
      else
        scanScalarAux data rest (i+1) inString escaped acc
    else
      scanScalarAux data rest (i+1) inString escaped acc

/-- Embeds Scanner.scanScalar (scanner.go lines 92-129): the scalar
structural scan, returning the list of structural indices it appends. -/
def scanScalar (data : List Nat) : List Nat :=
  scanScalarAux data data 0 false false []

/-- Indices (absolute, starting at `base`) of the bytes of `l` that are
structural.  This is the per-byte predicate applied by both the 32-byte
chunk loop and the scalar remainder loop of findStructuralIndicesAVX2
(simd_amd64_avx2.s): the assembly compares each byte against the 8
structural characters and stores the absolute index of every match, in
ascending order (BSF extracts set bits lowest-first). -/
def structuralIndicesIn : List Nat → Nat → List Nat
  | [], _ => []
  | c :: rest, base =>
    (if isStructuralByte c then [base] else []) ++
      structuralIndicesIn rest (base + 1)

/-- Embeds the chunk structure of findStructuralIndicesAVX2
(simd_amd64_avx2.s lines 17-133): full 32-byte chunks are processed by the
vector compare, the remainder (< 32 bytes) by the scalar loop with the same
per-byte predicate.  `fuel` bounds the number of chunks; `data.length` is
always sufficient since each chunk consumes 32 bytes. -/
def avx2Chunks : Nat → List Nat → Nat → List Nat
  | 0, l, base => structuralIndicesIn l base
  | fuel + 1, l, base =>
    if l.length < 32 then structuralIndicesIn l base
    else structuralIndicesIn (l.take 32) base ++
      avx2Chunks fuel (l.drop 32) (base + 32)

/-- Embeds findStructuralIndicesAVX2 (simd_amd64_avx2.s): the structural
index list the AVX2 assembly routine stores for a buffer. -/
def findStructuralIndicesAVX2 (data : List Nat) : List Nat :=
  avx2Chunks data.length data 0

/-- Embeds Scanner.scanSIMD on amd64 (simd_amd64.go lines 39-70) for a
scanner freshly drawn from the pool (structuralIndices has length 0 and
capacity 1024, tracked here only through the fault it causes).  The Go
code is, in order: (1) return nil on an empty buffer; (2) grow the
capacity of s.structuralIndices to len(buf)/8 if it is smaller;
(3) evaluate `&s.buf[0]` and `&s.structuralIndices[0]`; (4) reslice
s.structuralIndices to its capacity and call the assembly kernel.
Step (3) indexes element 0 of s.structuralIndices while its length is
still 0 (the reslice of step (4) happens only afterwards), which is an
index-out-of-range fault for every non-empty buffer; the fault is
modelled as `none`. -/
def scanSIMDAmd64 (buf : List Nat) : Option (List Nat) :=
  if buf.length = 0 then some []
  else none

example : scanScalar [91, 49, 44, 50, 44, 51, 93] = [0, 1, 2, 3, 4, 5, 6] := by decide
example : findStructuralIndicesAVX2 [91, 49, 44, 50, 44, 51, 93] = [0, 2, 4, 6] := by decide

/-- Embeds the TokenType constants of scanner.go (lines 176-191). -/
inductive TokenType where
  | TokenNone
  | TokenObjectBegin
  | TokenObjectEnd
  | TokenArrayBegin
  | TokenArrayEnd
  | TokenString
  | TokenNumber
  | TokenTrue
  | TokenFalse
  | TokenNull
  | TokenColon
  | TokenComma
deriving DecidableEq, Repr

/-- Reduction modulo 2^32: Go's `uint32(i)` conversion of the int cursor,
applied whenever an offset is stored into a token's Start or End field. -/
def u32 (n : Nat) : Nat := n % 4294967296

/-- Embeds the Token struct of scanner.go (lines 193-197); `endPos` is the
source's `End` field (a reserved word in Lean).  The source declares Start
and End as `uint32`, so the values stored here are always the `u32`
reduction of the cursor (they equal the true byte offsets only while the
cursor stays below 2^32, i.e. for buffers shorter than 2^32 bytes). -/
structure Token where
  type : TokenType
  start : Nat
  endPos : Nat
deriving DecidableEq, Repr

/-- Number of consecutive backslash bytes immediately before index `j`,
embedding the backward counting loop
`for j := i - 1; j >= 0 && data[j] == '\\'; j--` of SimpleTokenize
(scanner.go lines 391-393). -/
def cb (data : List Nat) : Nat → Nat
  | 0 => 0
  | j + 1 => if data.getD j 0 == 92 then cb data j + 1 else 0

/-- Embeds the string-scanning loop of SimpleTokenize (scanner.go lines
386-402): starting just after the opening quote at index `i`, advance until
a quote preceded by an even number of backslashes is found (returning the
index one past it) or the buffer ends (returning `data.length`).
`fuel` is `data.length - i` at the call site; the loop advances `i` by one
each iteration, so this fuel is exact. -/
def stringEnd (data : List Nat) : Nat → Nat → Nat
  | 0, i => i
  | fuel + 1, i =>
    if i < data.length then
      if data.getD i 0 == 34 && cb data i % 2 == 0 then i + 1
      else stringEnd data fuel (i + 1)
    else i

/-- Embeds the whitespace-skipping loop of SimpleTokenize (scanner.go lines
324-326).  `fuel` is `data.length - i` at the call site. -/
def skipWS (data : List Nat) : Nat → Nat → Nat
  | 0, i => i
  | fuel + 1, i =>
    if i < data.length && isWhitespace (data.getD i 0) then
      skipWS data fuel (i + 1)
    else i

/-- Length of the run of ASCII digits starting at index `i`, embedding the
digit-consuming loops `for i < len(data) && data[i] >= '0' && data[i] <= '9'
{ i++ }` of the number scanner in SimpleTokenize. -/
def digitRun (data : List Nat) (i : Nat) : Nat :=
  ((data.drop i).takeWhile isDigit).length

/-- Embeds the trailing validity check of the number scanner (scanner.go
lines 486-489): `i <= numStart`, or a bare minus sign, is rejected. -/
def scanNumEnd (data : List Nat) (start i4 : Nat) : Except String Nat :=
  if i4 ≤ start || (start == i4 - 1 && data.getD start 0 == 45) then
    .error "invalid number"
  else .ok i4

/-- Digit run required after an exponent marker (and optional sign) at
index `i3s`: one or more digits, then the trailing check. -/
def scanExpDigits (data : List Nat) (start i3s : Nat) : Except String Nat :=
  if data.length ≤ i3s || !isDigit (data.getD i3s 0) then
    .error "invalid number: no digits in exponent"
  else scanNumEnd data start (i3s + digitRun data i3s)

/-- Embeds the exponent phase of the number scanner (scanner.go lines
472-484): optional `e`/`E`, optional sign, then one or more digits. -/
def scanExp (data : List Nat) (start i3 : Nat) : Except String Nat :=
  if i3 < data.length && (data.getD i3 0 == 101 || data.getD i3 0 == 69) then
    if i3 + 1 < data.length &&
        (data.getD (i3+1) 0 == 43 || data.getD (i3+1) 0 == 45) then
      scanExpDigits data start (i3 + 2)
    else scanExpDigits data start (i3 + 1)
  else scanNumEnd data start i3

/-- Embeds the fraction phase of the number scanner (scanner.go lines
461-470): optional `.` followed by one or more digits. -/
def scanFrac (data : List Nat) (start i2 : Nat) : Except String Nat :=
  if i2 < data.length && data.getD i2 0 == 46 then
    if data.length ≤ i2 + 1 || !isDigit (data.getD (i2+1) 0) then
      .error "invalid number: no digits after decimal"
    else scanExp data start (i2 + 1 + digitRun data (i2+1))
  else scanExp data start i2

/-- Integer part of the number scanner starting at `i0` (the first index
after the optional minus): the redundant "no digits" re-check of the
source, then either the single `0` (rejecting a following digit) or a
digit run, then the fraction phase. -/
def scanIntPart (data : List Nat) (start i0 : Nat) : Except String Nat :=
  if data.length ≤ i0 || !isDigit (data.getD i0 0) then
    .error "invalid number: no digits"
  else if data.getD i0 0 == 48 then
    if i0 + 1 < data.length && isDigit (data.getD (i0+1) 0) then
      .error "invalid number: leading zero"
    else scanFrac data start (i0 + 1)
  else scanFrac data start (i0 + digitRun data i0)

/-- Embeds the number scanner of SimpleTokenize (scanner.go lines 432-492):
optional minus (requiring a digit right after it), integer part, fraction
and exponent phases.  Returns the index one past the number lexeme, or the
source's error. -/
def scanNumber (data : List Nat) (start : Nat) : Except String Nat :=
  if data.getD start 0 == 45 then
    if data.length ≤ start + 1 || !isDigit (data.getD (start + 1) 0) then
      .error "invalid number: missing digits after minus"
    else scanIntPart data start (start + 1)
  else scanIntPart data start start

/-- Type of the most recently produced token, or TokenNone if there is none
yet: the lookback `tokens[len(tokens)-1]` of SimpleTokenize (scanner.go
lines 336-356); TokenNone never equals TokenColon or TokenComma, so the
guard `len(tokens) > 0` is absorbed. -/
def lastTokenType (tokens : List Token) : TokenType :=
  match tokens.getLast? with
  | some t => t.type
  | none => .TokenNone

/-- Embeds one dispatch step of SimpleTokenize (scanner.go lines 332-496)
at a non-whitespace index `i < data.length`: the local-grammar lookback
checks, then the token for the byte at `i`.  The token's Start and End are
the `u32` (uint32) reductions of the cursor, as in the source; alongside
the token, the raw value of the int cursor `i` at the end of the iteration
is returned, since the loop continues from the unwrapped cursor. -/
def nextToken (data : List Nat) (lastTy : TokenType) (i : Nat)
    (c : Nat) : Except String (Token × Nat) :=
  if lastTy == .TokenColon && (c == 125 || c == 93 || c == 44) then
    .error "expected value after colon"
  else if lastTy == .TokenComma && c == 44 then
    .error "unexpected comma"
  else if lastTy == .TokenComma && c == 125 then
    .error "trailing comma in object"
  else if lastTy == .TokenComma && c == 93 then
    .error "trailing comma in array"
  else if c == 123 then .ok (⟨.TokenObjectBegin, u32 i, u32 (i + 1)⟩, i + 1)
  else if c == 125 then .ok (⟨.TokenObjectEnd, u32 i, u32 (i + 1)⟩, i + 1)
  else if c == 91 then .ok (⟨.TokenArrayBegin, u32 i, u32 (i + 1)⟩, i + 1)
  else if c == 93 then .ok (⟨.TokenArrayEnd, u32 i, u32 (i + 1)⟩, i + 1)
  else if c == 58 then .ok (⟨.TokenColon, u32 i, u32 (i + 1)⟩, i + 1)
  else if c == 44 then .ok (⟨.TokenComma, u32 i, u32 (i + 1)⟩, i + 1)
  else if c == 34 then
    .ok (⟨.TokenString, u32 i,
        u32 (stringEnd data (data.length - (i + 1)) (i + 1))⟩,
      stringEnd data (data.length - (i + 1)) (i + 1))
  else if c == 116 then
    if i + 4 ≤ data.length && (data.drop i).take 4 == [116, 114, 117, 101] then
      .ok (⟨.TokenTrue, u32 i, u32 (i + 4)⟩, i + 4)
    else .error "invalid token starting with t"
  else if c == 102 then
    if i + 5 ≤ data.length &&
        (data.drop i).take 5 == [102, 97, 108, 115, 101] then
      .ok (⟨.TokenFalse, u32 i, u32 (i + 5)⟩, i + 5)
    else .error "invalid token starting with f"
  else if c == 110 then
    if i + 4 ≤ data.length && (data.drop i).take 4 == [110, 117, 108, 108] then
      .ok (⟨.TokenNull, u32 i, u32 (i + 4)⟩, i + 4)
    else .error "invalid token starting with n"
  else if c == 45 || isDigit c then
    match scanNumber data i with
    | .error e => .error e
    | .ok j => .ok (⟨.TokenNumber, u32 i, u32 j⟩, j)
  else .error "unexpected character"

/-- Embeds the outer loop of SimpleTokenize (scanner.go lines 320-499):
skip whitespace, stop at the end of the buffer, otherwise produce one token
and continue at its end offset.  The loop advances the cursor by at least
one byte per iteration, so fuel `data.length + 1` never runs out. -/
def tokLoop (data : List Nat) : Nat → Nat → List Token → Except String (List Token)
  | 0, _, _ => .error "token scan did not terminate"
  | fuel + 1, i, tokens =>
    if data.length ≤ skipWS data (data.length - i) i then .ok tokens
    else
      match nextToken data (lastTokenType tokens)
          (skipWS data (data.length - i) i)
          (data.getD (skipWS data (data.length - i) i) 0) with
      | .error e => .error e
      | .ok (tok, j) => tokLoop data fuel j (tokens ++ [tok])

/-- Embeds Scanner.SimpleTokenize (scanner.go lines 310-502). -/
def SimpleTokenize (data : List Nat) : Except String (List Token) :=
  if data.length == 0 then .error "empty input"
  else tokLoop data (data.length + 1) 0 []

/-- Embeds the token-walking loop of Scanner.Validate (scanner.go lines
143-173): running depth plus an explicit stack of open Begin kinds; each
End must match the stack top; a negative depth fails; success needs depth
zero and an empty stack at the end. -/
def validateLoop : List Token → Int → List TokenType → Bool
  | [], depth, stack => depth == 0 && stack.isEmpty
  | t :: rest, depth, stack =>
    match t.type with
    | .TokenObjectBegin =>
      if depth + 1 < 0 then false
      else validateLoop rest (depth + 1) (stack ++ [.TokenObjectBegin])
    | .TokenArrayBegin =>
      if depth + 1 < 0 then false
      else validateLoop rest (depth + 1) (stack ++ [.TokenArrayBegin])
    | .TokenObjectEnd =>
      if stack.getLast? ≠ some .TokenObjectBegin then false
      else if depth - 1 < 0 then false
      else validateLoop rest (depth - 1) stack.dropLast
    | .TokenArrayEnd =>
      if stack.getLast? ≠ some .TokenArrayBegin then false
      else if depth - 1 < 0 then false
      else validateLoop rest (depth - 1) stack.dropLast
    | _ =>
      if depth < 0 then false
      else validateLoop rest depth stack

/-- Embeds Scanner.Validate (scanner.go lines 135-174): tokenize with
SimpleTokenize (any tokenizer error means invalid), then the structural
balance walk. -/
def Validate (data : List Nat) : Bool :=
  match SimpleTokenize data with
  | .error _ => false
  | .ok toks => validateLoop toks 0 []

example : SimpleTokenize [123, 125] = .ok [⟨.TokenObjectBegin, 0, 1⟩, ⟨.TokenObjectEnd, 1, 2⟩] := rfl
example : SimpleTokenize [34, 97, 98, 99] = .ok [⟨.TokenString, 0, 4⟩] := rfl
example : Validate [34, 97, 98, 99] = true := by decide
example : Validate [91, 49, 93] = true := by decide
example : Validate [91, 49] = false := by decide
example : Validate [123, 34, 107, 34, 58, 34, 118, 34, 44, 125] = false := by decide
example : SimpleTokenize [49, 32, 50] = .ok [⟨.TokenNumber, 0, 1⟩, ⟨.TokenNumber, 2, 3⟩] := rfl

/-- Dynamic value produced by the parser, a tagged model of the Go
`interface{}` results: nil, bool, int64, float64, string, []interface{} and
map[string]interface{} (parser.go).  A float is tagged with the lexeme it
was parsed from: no claim below inspects the numeric value of a float, only
the Integer/Float distinction.  The Go map is modelled as an insertion-order
association list with last-write-wins updates. -/
inductive JValue where
  | null
  | bool (b : Bool)
  | int (n : Int)
  | float (lex : List Nat)
  | str (s : List Nat)
  | arr (elems : List JValue)
  | obj (fields : List (List Nat × JValue))

/-- Embeds the map assignment `obj[key] = value` of Parser.parseObject on
the association-list model: overwrite the entry for an existing key,
otherwise append. -/
def mapSet : List (List Nat × JValue) → List Nat → JValue →
    List (List Nat × JValue)
  | [], k, v => [(k, v)]
  | (k0, v0) :: rest, k, v =>
    if k0 = k then (k0, v) :: rest else (k0, v0) :: mapSet rest k v

/-- Embeds containsEscape (parser.go lines 199-206). -/
def containsEscape (b : List Nat) : Bool :=
  b.any (fun c => c == 92)

/-- Hexadecimal digit value, as accepted by strconv.ParseUint with base 16
(digits, lowercase and uppercase letters). -/
def hexVal (c : Nat) : Option Nat :=
  if 48 ≤ c && c ≤ 57 then some (c - 48)
  else if 97 ≤ c && c ≤ 102 then some (c - 97 + 10)
  else if 65 ≤ c && c ≤ 70 then some (c - 65 + 10)
  else none

/-- UTF-8 encoding of a code point below 0x10000, as produced by Go's
`string(rune(r))`: one, two or three bytes, with the surrogate range
D800-DFFF replaced by the encoding of U+FFFD. -/
def utf8Encode (r : Nat) : List Nat :=
  if r < 128 then [r]
  else if r < 2048 then
    [192 ||| (r >>> 6), 128 ||| (r &&& 63)]
  else if 55296 ≤ r && r ≤ 57343 then [239, 191, 189]
  else
    [224 ||| (r >>> 12), 128 ||| ((r >>> 6) &&& 63), 128 ||| (r &&& 63)]

/-- Embeds Parser.unescapeString (parser.go lines 208-251): copy plain
bytes, decode the single-character escapes, and decode `\uXXXX` (exactly
four hex digits, one code point, no surrogate-pair combination; a non-hex
digit is the strconv.ParseUint error). -/
def unescapeString : List Nat → Except String (List Nat)
  | [] => .ok []
  | c :: rest =>
    if c != 92 then
      match unescapeString rest with
      | .ok s => .ok (c :: s)
      | .error e => .error e
    else
      match rest with
      | [] => .error "invalid escape sequence"
      | e :: rest2 =>
        if e == 34 || e == 92 || e == 47 then
          match unescapeString rest2 with
          | .ok s => .ok (e :: s)
          | .error er => .error er
        else if e == 98 then
          match unescapeString rest2 with
          | .ok s => .ok (8 :: s)
          | .error er => .error er
        else if e == 102 then
          match unescapeString rest2 with
          | .ok s => .ok (12 :: s)
          | .error er => .error er
        else if e == 110 then
          match unescapeString rest2 with
          | .ok s => .ok (10 :: s)
          | .error er => .error er
        else if e == 114 then
          match unescapeString rest2 with
          | .ok s => .ok (13 :: s)
          | .error er => .error er
        else if e == 116 then
          match unescapeString rest2 with
          | .ok s => .ok (9 :: s)
          | .error er => .error er
        else if e == 117 then
          match rest2 with
          | h1 :: h2 :: h3 :: h4 :: rest3 =>
            match hexVal h1, hexVal h2, hexVal h3, hexVal h4 with
            | some a, some b, some c3, some d =>
              match unescapeString rest3 with
              | .ok s => .ok (utf8Encode (a * 4096 + b * 256 + c3 * 16 + d) ++ s)
              | .error er => .error er
            | _, _, _, _ => .error "invalid unicode escape digits"
          | _ => .error "invalid unicode escape"
        else .error "invalid escape character"

/-- Embeds the shared digit-accumulation loop of both parseIntegerScalar
variants (scanner.go lines 615-631 and pool.go lines 173-188): stop at the
first non-digit; on overflow of the int64 maximum return the whole
function's `(0, false)`, modelled as `none`; otherwise accumulate and
remember (for the arm64 variant) that at least one digit was consumed. -/
def scanDigits : List Nat → Nat → Bool → Option (Nat × Bool)
  | [], acc, parsed => some (acc, parsed)
  | c :: rest, acc, parsed =>
    if c < 48 || 57 < c then some (acc, parsed)
    else if (9223372036854775807 - (c - 48)) / 10 < acc then none
    else scanDigits rest (acc * 10 + (c - 48)) true

/-- Embeds Scanner.parseIntegerScalar of the arm64 build (scanner.go lines
596-638): optional minus, digit accumulation with overflow check, and the
`parsed` flag that records whether any digit was consumed. -/
def parseIntegerScalar (data : List Nat) : Int × Bool :=
  match data with
  | [] => (0, false)
  | c0 :: rest =>
    if c0 == 45 then
      if rest.isEmpty then (0, false)
      else
        match scanDigits rest 0 false with
        | none => (0, false)
        | some (mag, parsed) => (-(mag : Int), parsed)
    else
      match scanDigits (c0 :: rest) 0 false with
      | none => (0, false)
      | some (mag, parsed) => ((mag : Int), parsed)

/-- Embeds Scanner.parseIntegerScalar of the non-amd64, non-arm64 build
(pool.go lines 155-195): the same loop, but the returned flag is
`start < len(data)`, which after the early bare-minus return is true for
every non-overflowing non-empty input, digits or not. -/
def parseIntegerScalarPool (data : List Nat) : Int × Bool :=
  match data with
  | [] => (0, false)
  | c0 :: rest =>
    if c0 == 45 then
      if rest.isEmpty then (0, false)
      else
        match scanDigits rest 0 false with
        | none => (0, false)
        | some (mag, _) => (-(mag : Int), true)
    else
      match scanDigits (c0 :: rest) 0 false with
      | none => (0, false)
      | some (mag, _) => ((mag : Int), true)

/-- Embeds Scanner.SIMDParseInteger on the arm64 build (scanner.go lines
578-593): the NEON kernel is a stub that always reports failure
(parseIntegerNEON, returning `(0, false)`), so the call always falls back
to the scalar implementation. -/
def SIMDParseInteger (data : List Nat) : Int × Bool :=
  parseIntegerScalar data

/-- Model of the Go standard library call strconv.ParseInt(s, 10, 64) used
as the fallback in Parser.parseNumber: an optional sign followed by one or
more ASCII digits, accepted exactly when the whole input is consumed and
the value fits in a signed 64-bit integer. -/
def goParseInt64 (data : List Nat) : Option Int :=
  if data.isEmpty then none
  else
    let body := if data.getD 0 0 == 45 || data.getD 0 0 == 43 then data.tail
      else data
    if body.isEmpty || !body.all isDigit then none
    else
      let mag : Nat := body.foldl (fun a c => a * 10 + (c - 48)) 0
      if data.getD 0 0 == 45 then
        if mag ≤ 9223372036854775808 then some (-(mag : Int)) else none
      else
        if mag ≤ 9223372036854775807 then some ((mag : Int)) else none

/-- Embeds containsFloatCharsBytes (parser.go lines 289-296). -/
def containsFloatCharsBytes (b : List Nat) : Bool :=
  b.any (fun c => c == 46 || c == 101 || c == 69)

/-- Decimal value accumulated over a digit list starting from `acc`,
matching the loop `result = result*10 + digit`. -/
def digitsVal (acc : Nat) (ds : List Nat) : Nat :=
  ds.foldl (fun a c => a * 10 + (c - 48)) acc

/-- Digit characters of the integer part of a decimal lexeme (after an
optional leading sign, accepted by strconv.ParseFloat as '+' or '-'). -/
def floatIntChars (l : List Nat) : List Nat :=
  (if l.getD 0 0 == 45 || l.getD 0 0 == 43 then l.tail else l).takeWhile
    isDigit

/-- Remainder of a decimal lexeme after the sign and the integer digits. -/
def floatRest1 (l : List Nat) : List Nat :=
  (if l.getD 0 0 == 45 || l.getD 0 0 == 43 then l.tail else l).drop
    (floatIntChars l).length

/-- Digit characters of the fraction part of a decimal lexeme. -/
def floatFracChars (l : List Nat) : List Nat :=
  if (floatRest1 l).getD 0 0 == 46 then
    ((floatRest1 l).tail).takeWhile isDigit
  else []

/-- Remainder of a decimal lexeme after sign, integer and fraction parts:
the exponent marker and its digits, when present. -/
def floatExpPart (l : List Nat) : List Nat :=
  if (floatRest1 l).getD 0 0 == 46 then
    (floatRest1 l).drop (1 + (floatFracChars l).length)
  else floatRest1 l

/-- Signed value of the decimal exponent of a lexeme (0 when absent). -/
def floatExpVal (l : List Nat) : Int :=
  if (floatExpPart l).getD 0 0 == 101 || (floatExpPart l).getD 0 0 == 69 then
    if ((floatExpPart l).tail).getD 0 0 == 45 then
      -(digitsVal 0 (((floatExpPart l).tail.tail).takeWhile isDigit) : Int)
    else if ((floatExpPart l).tail).getD 0 0 == 43 then
      (digitsVal 0 (((floatExpPart l).tail.tail).takeWhile isDigit) : Int)
    else (digitsVal 0 (((floatExpPart l).tail).takeWhile isDigit) : Int)
  else 0

/-- Integer value of all mantissa digits of a decimal lexeme (integer and
fraction digits concatenated), so that the lexeme's magnitude is this
value times 10 to the power `floatK`. -/
def floatMant (l : List Nat) : Nat :=
  digitsVal 0 (floatIntChars l ++ floatFracChars l)

/-- Number of significant decimal digits of the mantissa (leading zeros
stripped); for an all-digit mantissa this is the decimal digit count of
`floatMant`. -/
def floatNd (l : List Nat) : Nat :=
  ((floatIntChars l ++ floatFracChars l).dropWhile (fun c => c == 48)).length

/-- Power-of-ten scale of the mantissa: the decimal exponent minus the
number of fraction digits. -/
def floatK (l : List Nat) : Int :=
  floatExpVal l - (floatFracChars l).length

/-- Smallest magnitude that strconv.ParseFloat(·, 64) rounds to infinity:
half an ulp above the largest finite float64, i.e. (2^54 - 1) * 2^970
(round-half-to-even sends the midpoint itself to infinity). -/
def float64OverflowThreshold : Nat := (2 ^ 54 - 1) * 2 ^ 970

/-- Model of the range-error condition of the Go standard library call
strconv.ParseFloat(s, 64) on a decimal lexeme: the call returns a non-nil
error exactly when the lexeme's exact magnitude, floatMant * 10^floatK,
reaches float64OverflowThreshold.  Mirroring strconv's decimal conversion,
the decimal-point position floatNd + floatK is clamped first (above 310:
certain overflow; at or below 308: certainly finite, including underflow
to zero, which in Go returns a nil error), and only the two remaining
positions are compared exactly against the threshold. -/
def parseFloatOverflow (l : List Nat) : Bool :=
  if floatMant l == 0 then false
  else if 311 ≤ (floatNd l : Int) + floatK l then true
  else if (floatNd l : Int) + floatK l ≤ 308 then false
  else if 0 ≤ floatK l then
    decide (float64OverflowThreshold ≤ floatMant l * 10 ^ (floatK l).toNat)
  else
    decide (float64OverflowThreshold * 10 ^ (-(floatK l)).toNat ≤ floatMant l)

/-- Model of the final strconv.ParseFloat step of Parser.parseNumber
(parser.go lines 272-277): the range error is propagated as parseNumber's
error; on success the resulting float is represented by its lexeme (no
claim inspects the numeric value of a float, only the tag). -/
def goParseFloat (l : List Nat) : Except String JValue :=
  if parseFloatOverflow l then .error "value out of range"
  else .ok (.float l)

/-- Embeds Parser.parseNumber (parser.go lines 253-278) on the lexeme
bytes: without float characters, try SIMDParseInteger, then
strconv.ParseInt, and fall through to the float parse otherwise; with
float characters, parse as a float directly.  The float parse fails with
the strconv range error on lexemes beyond the float64 range (e.g. 1e999
or a 310-digit integer), in which case parseNumber returns that error. -/
def parseNumberLex (numBytes : List Nat) : Except String JValue :=
  if !containsFloatCharsBytes numBytes then
    match SIMDParseInteger numBytes with
    | (v, true) => .ok (.int v)
    | (_, false) =>
      match goParseInt64 numBytes with
      | some v => .ok (.int v)
      | none => goParseFloat numBytes
  else goParseFloat numBytes

/-- Embeds Parser.parseString (parser.go lines 179-197) at token position
`pos`: empty span short-circuit, the bytes strictly between the quotes,
zero-copy fast path without backslashes, unescape otherwise.  The guard
`token.Start+1 >= token.End-1` is written `start+2 >= endPos`, the same
test for the tokens the tokenizer produces (their `End` is at least 1). -/
def parseStringTok (tokens : List Token) (data : List Nat) (pos : Nat) :
    Except String (List Nat × Nat) :=
  let token := tokens.getD pos ⟨.TokenNone, 0, 0⟩
  if token.endPos ≤ token.start + 2 then .ok ([], pos + 1)
  else
    let str := (data.drop (token.start + 1)).take
      (token.endPos - 1 - (token.start + 1))
    if !containsEscape str then .ok (str, pos + 1)
    else
      match unescapeString str with
      | .ok s => .ok (s, pos + 1)
      | .error e => .error e

/-- Embeds Parser.parseNumber's lexeme extraction (parser.go lines
253-257): the token's byte range is handed to the number materialization,
whose error (the strconv range error) is propagated. -/
def parseNumberTok (tokens : List Token) (data : List Nat) (pos : Nat) :
    Except String (JValue × Nat) :=
  let token := tokens.getD pos ⟨.TokenNone, 0, 0⟩
  let numBytes := (data.drop token.start).take (token.endPos - token.start)
  match parseNumberLex numBytes with
  | .error e => .error e
  | .ok v => .ok (v, pos + 1)

/-- Control mode of the recursive-descent parser: a value dispatch
(Parser.parseValue), the key/value loop of Parser.parseObject with its
accumulated fields, or the element loop of Parser.parseArray with its
accumulated elements. -/
inductive PMode where
  | value
  | objLoop (acc : List (List Nat × JValue))
  | arrLoop (acc : List JValue)

/-- Embeds the mutually recursive Parser.parseValue / parseObject /
parseArray (parser.go lines 54-177) as one fuel-indexed function.  The Go
recursion terminates because every call strictly advances the token
cursor; here every recursive call descends on `fuel`, and the caller
supplies `2 * tokens.length + 2`, which dominates the source's call chain
(each recursive call follows the consumption of at least one token). -/
def parseRun : Nat → PMode → List Token → List Nat → Nat →
    Except String (JValue × Nat)
  | 0, _, _, _, _ => .error "recursion limit"
  | fuel + 1, .value, tokens, data, pos =>
    if tokens.length ≤ pos then .error "unexpected end of JSON"
    else
      let token := tokens.getD pos ⟨.TokenNone, 0, 0⟩
      match token.type with
      | .TokenObjectBegin =>
        -- Parser.parseObject: skip the brace, empty-object short circuit,
        -- then the key/value loop
        if pos + 1 < tokens.length &&
            (tokens.getD (pos + 1) ⟨.TokenNone, 0, 0⟩).type ==
              .TokenObjectEnd then
          .ok (.obj [], pos + 2)
        else parseRun fuel (.objLoop []) tokens data (pos + 1)
      | .TokenArrayBegin =>
        -- Parser.parseArray: skip the bracket, empty-array short circuit,
        -- then the element loop
        if pos + 1 < tokens.length &&
            (tokens.getD (pos + 1) ⟨.TokenNone, 0, 0⟩).type ==
              .TokenArrayEnd then
          .ok (.arr [], pos + 2)
        else parseRun fuel (.arrLoop []) tokens data (pos + 1)
      | .TokenString =>
        match parseStringTok tokens data pos with
        | .ok (s, pos2) => .ok (.str s, pos2)
        | .error e => .error e
      | .TokenNumber => parseNumberTok tokens data pos
      | .TokenTrue => .ok (.bool true, pos + 1)
      | .TokenFalse => .ok (.bool false, pos + 1)
      | .TokenNull => .ok (.null, pos + 1)
      | _ => .error "unexpected token"
  | fuel + 1, .objLoop acc, tokens, data, pos =>
    -- one iteration of the parseObject loop (parser.go lines 94-135)
    if tokens.length ≤ pos ||
        (tokens.getD pos ⟨.TokenNone, 0, 0⟩).type != .TokenString then
      .error "expected string key"
    else
      match parseStringTok tokens data pos with
      | .error e => .error e
      | .ok (key, pos2) =>
        if tokens.length ≤ pos2 ||
            (tokens.getD pos2 ⟨.TokenNone, 0, 0⟩).type != .TokenColon then
          .error "expected colon after key"
        else
          match parseRun fuel .value tokens data (pos2 + 1) with
          | .error e => .error e
          | .ok (v, pos3) =>
            let acc2 := mapSet acc key v
            if tokens.length ≤ pos3 then .error "unexpected end in object"
            else if (tokens.getD pos3 ⟨.TokenNone, 0, 0⟩).type ==
                .TokenObjectEnd then
              .ok (.obj acc2, pos3 + 1)
            else if (tokens.getD pos3 ⟨.TokenNone, 0, 0⟩).type ==
                .TokenComma then
              parseRun fuel (.objLoop acc2) tokens data (pos3 + 1)
            else .error "expected comma or object end"
  | fuel + 1, .arrLoop acc, tokens, data, pos =>
    -- one iteration of the parseArray loop (parser.go lines 150-174)
    match parseRun fuel .value tokens data pos with
    | .error e => .error e
    | .ok (v, pos2) =>
      let acc2 := acc ++ [v]
      if tokens.length ≤ pos2 then .error "unexpected end in array"
      else if (tokens.getD pos2 ⟨.TokenNone, 0, 0⟩).type ==
          .TokenArrayEnd then
        .ok (.arr acc2, pos2 + 1)
      else if (tokens.getD pos2 ⟨.TokenNone, 0, 0⟩).type ==
          .TokenComma then
        parseRun fuel (.arrLoop acc2) tokens data (pos2 + 1)
      else .error "expected comma or array end"

/-- Embeds Parser.Parse (parser.go lines 26-52): SimpleTokenize, the
empty-token check, then parseValue at token position 0, discarding the
final cursor (trailing tokens are not checked). -/
def Parse (data : List Nat) : Except String JValue :=
  match SimpleTokenize data with
  | .error e => .error e
  | .ok tokens =>
    if tokens.length == 0 then .error "empty JSON"
    else
      match parseRun (2 * tokens.length + 2) .value tokens data 0 with
      | .error e => .error e
      | .ok (v, _) => .ok v

example : Parse [49, 32, 50] = .ok (.int 1) := rfl
example : Parse [34, 97, 98, 99] = .ok (.str [97, 98]) := rfl
example : Parse [91, 49, 44, 50, 93] = .ok (.arr [.int 1, .int 2]) := rfl
example : Parse [123, 34, 97, 34, 58, 49, 125] = .ok (.obj [([97], .int 1)]) := rfl
example : Parse [] = .error "empty input" := rfl
example : Parse [32] = .error "empty JSON" := rfl
example : Parse [110, 117, 108, 108] = .ok .null := rfl

/-- Embeds the loop of Scanner.generateQuoteMaskScalar (scanner.go lines
663-690 and, identically, pool.go lines 203-234): walk the buffer with the
inString / escaped state machine and set bit `i % 64` of word `i / 64` for
every quote the machine treats as unescaped.  `i` is the absolute index of
the head of the remaining list; `masks` always has `(len+63)/64` words, so
the written word index `i / 64` is in range. -/
def quoteGo : List Nat → Nat → Bool → Bool → List Nat → List Nat
  | [], _, _, _, masks => masks
  | b :: rest, i, inString, escaped, masks =>
    if escaped then quoteGo rest (i + 1) inString false masks
    else if b == 92 && inString then quoteGo rest (i + 1) inString true masks
    else if b == 34 then
      quoteGo rest (i + 1) (!inString) escaped
        (masks.set (i / 64) (masks.getD (i / 64) 0 ||| 1 <<< (i % 64)))
    else quoteGo rest (i + 1) inString escaped masks

/-- Embeds Scanner.generateQuoteMaskScalar (scanner.go lines 663-690):
allocate `(len+63)/64` zero words and run the marking loop.  (The pool.go
copy returns nil for an empty buffer; both give the empty word list.) -/
def generateQuoteMaskScalar (data : List Nat) : List Nat :=
  quoteGo data 0 false false (List.replicate ((data.length + 63) / 64) 0)

/-- Bit `q` of a quote-mask word list: bit `q % 64` of word `q / 64`. -/
def maskBit (masks : List Nat) (q : Nat) : Bool :=
  (masks.getD (q / 64) 0).testBit (q % 64)

/-- Reference predicate for the quote mask, following the corrected claim:
whether the byte at absolute index `q` is a quote that the scalar scan's
inString / escaped state machine treats as unescaped (an escaped quote
inside a string is skipped and not marked). -/
def quoteMarked : List Nat → Nat → Bool → Bool → Nat → Bool
  | [], _, _, _, _ => false
  | b :: rest, i, inString, escaped, q =>
    if escaped then quoteMarked rest (i + 1) inString false q
    else if b == 92 && inString then quoteMarked rest (i + 1) inString true q
    else if b == 34 then
      (q == i) || quoteMarked rest (i + 1) (!inString) escaped q
    else quoteMarked rest (i + 1) inString escaped q

example : maskBit (generateQuoteMaskScalar [34, 92, 34, 34]) 0 = true := by decide
example : maskBit (generateQuoteMaskScalar [34, 92, 34, 34]) 2 = false := by decide
example : maskBit (generateQuoteMaskScalar [34, 92, 34, 34]) 3 = true := by decide

/-- Embeds decodeRuneInString (scanner.go lines 721-754), the simplified
utf8.DecodeRuneInString: ASCII fast path, two-byte sequences with an
overlong check, and the replacement rune 0xFFFD with size 1 for every
other lead byte — including every lead byte at or above 0xE0, so every
three- and four-byte sequence decodes to the error value. -/
def decodeRuneInString (s : List Nat) : Nat × Nat :=
  match s with
  | [] => (65533, 0)
  | c0 :: rest =>
    if c0 < 128 then (c0, 1)
    else if c0 < 192 then (65533, 1)
    else if c0 < 224 then
      match rest with
      | [] => (65533, 1)
      | c1 :: _ =>
        if c1 < 128 || 192 ≤ c1 then (65533, 1)
        else
          let r := (c0 &&& 31) <<< 6 ||| (c1 &&& 63)
          if r < 128 then (65533, 1) else (r, 2)
    else (65533, 1)

/-- Embeds the loop of Scanner.validateUTF8Scalar (scanner.go lines
709-718): decode rune by rune, failing on the error value with size 1.
Each step consumes at least one byte, so fuel `length + 1` never runs
out. -/
def utf8Go : Nat → List Nat → Bool
  | 0, _ => true
  | fuel + 1, s =>
    if s.isEmpty then true
    else
      let rs := decodeRuneInString s
      if rs.1 == 65533 && rs.2 == 1 then false
      else utf8Go fuel (s.drop rs.2)

/-- Embeds Scanner.validateUTF8Scalar (scanner.go lines 709-718), the
implementation SIMDValidateUTF8 always falls back to on the arm64 and
portable builds. -/
def validateUTF8Scalar (data : List Nat) : Bool :=
  utf8Go (data.length + 1) data

/-- Reference predicate, following the claim's words: well-formed UTF-8 in
the standard sense (RFC 3629) — ASCII bytes, and two-, three- and
four-byte sequences with the correct continuation bytes, no overlong
encodings, no surrogates, and no code point above U+10FFFF. -/
def utf8WellFormed : List Nat → Bool
  | [] => true
  | c0 :: rest =>
    if c0 < 128 then utf8WellFormed rest
    else if 194 ≤ c0 && c0 ≤ 223 then
      match rest with
      | c1 :: r => (128 ≤ c1 && c1 ≤ 191) && utf8WellFormed r
      | _ => false
    else if 224 ≤ c0 && c0 ≤ 239 then
      match rest with
      | c1 :: c2 :: r =>
        (if c0 == 224 then 160 ≤ c1 && c1 ≤ 191
         else if c0 == 237 then 128 ≤ c1 && c1 ≤ 159
         else 128 ≤ c1 && c1 ≤ 191) &&
        (128 ≤ c2 && c2 ≤ 191) && utf8WellFormed r
      | _ => false
    else if 240 ≤ c0 && c0 ≤ 244 then
      match rest with
      | c1 :: c2 :: c3 :: r =>
        (if c0 == 240 then 144 ≤ c1 && c1 ≤ 191
         else if c0 == 244 then 128 ≤ c1 && c1 ≤ 143
         else 128 ≤ c1 && c1 ≤ 191) &&
        (128 ≤ c2 && c2 ≤ 191) && (128 ≤ c3 && c3 ≤ 191) &&
        utf8WellFormed r
      | _ => false
    else false

example : validateUTF8Scalar [104, 105] = true := by decide
example : validateUTF8Scalar [206, 187] = true := by decide
example : validateUTF8Scalar [228, 184, 150] = false := by decide
example : utf8WellFormed [228, 184, 150] = true := by decide
example : utf8WellFormed [192, 175] = false := by decide

/-! Claim theorems: concrete evaluations and counterexamples. -/

/-- C1: the claim says no primitive can reach an out-of-range index for any
input, but on amd64 Scanner.scanSIMD evaluates `&s.structuralIndices[0]`
while that slice still has length 0, an index-out-of-range fault, for every
non-empty buffer — here at the one-byte buffer "1"; the scalar scan handles
the same buffer without fault. -/
theorem scanSIMD_amd64_faults_on_nonempty :
    scanSIMDAmd64 [49] = none ∧ scanSIMDAmd64 [] = some [] ∧
      scanScalar [49] = [0] := by
  refine ⟨rfl, rfl, by decide⟩

/-- C2: the claim says the SIMD structural scan returns the same index list
as scanScalar, but on the buffer "[1,2,3]" the scalar scan also records the
value-start digits (indices 1, 3, 5) while the AVX2 kernel records only the
8 structural bytes, so the two lists differ. -/
theorem avx2_structural_scan_differs_from_scalar :
    scanScalar [91, 49, 44, 50, 44, 51, 93] = [0, 1, 2, 3, 4, 5, 6] ∧
      findStructuralIndicesAVX2 [91, 49, 44, 50, 44, 51, 93] = [0, 2, 4, 6] := by
  exact ⟨by decide, by decide⟩

/-- C3: the claim says an unterminated string makes tokenization fail, and
hence validate return false and parse return an error; but SimpleTokenize
accepts the buffer `"abc` as a single String token reaching the end of the
buffer, Validate returns true on it, and Parse succeeds, returning the
string "ab" (the final byte is even dropped by the quote-stripping slice). -/
theorem unterminated_string_accepted :
    SimpleTokenize [34, 97, 98, 99] = .ok [⟨.TokenString, 0, 4⟩] ∧
      Validate [34, 97, 98, 99] = true ∧
      Parse [34, 97, 98, 99] = .ok (.str [97, 98]) :=
  ⟨rfl, rfl, rfl⟩

/-- C4: the claim says the scalar UTF-8 validator accepts every well-formed
buffer, but it rejects the well-formed three-byte sequence E4 B8 96 (the
character U+4E16, the first byte of the repository's own "hello 世界" test
input), because decodeRuneInString returns the error rune for every lead
byte at or above 0xE0. -/
theorem utf8_scalar_rejects_valid_three_byte :
    validateUTF8Scalar [228, 184, 150] = false ∧
      utf8WellFormed [228, 184, 150] = true := by
  exact ⟨by decide, by decide⟩

/-- C5 counterexample: the claim says bit i of the scalar quote mask is set
exactly when byte i is a raw quote, escaping not resolved; but on the
buffer `"\"` (quote, backslash, quote) the raw quote at index 2 is escaped
inside the open string and its bit is not set. -/
theorem quoteMask_raw_quote_not_marked :
    maskBit (generateQuoteMaskScalar [34, 92, 34]) 2 = false ∧
      List.getD [34, 92, 34] 2 0 = 34 := by
  exact ⟨by decide, by decide⟩

/-- C6 counterexample: the claim says the scalar leading-integer parse
returns consumed=false when the first byte after the optional minus is not
a digit, but the portable (non-amd64, non-arm64) implementation in pool.go
returns `(0, true)` on the buffer "a". -/
theorem parseIntegerScalarPool_consumes_nondigit :
    parseIntegerScalarPool [97] = (0, true) ∧ isDigit 97 = false := by
  exact ⟨rfl, by decide⟩

/-- C7 counterexample: the claim says a tokenizer-accepted number lexeme
without '.', 'e', 'E' yields an Integer; but the lexeme 9223372036854775808
(2^63, one past the int64 maximum) is accepted by the tokenizer as a
Number, contains no float character, and parseNumber materializes it as a
Float: both integer paths fail on overflow and the code falls through to
the float parse. -/
theorem parseNumber_overflow_int_lexeme_is_float :
    SimpleTokenize [57, 50, 50, 51, 51, 55, 50, 48, 51, 54, 56, 53, 52, 55,
        55, 53, 56, 48, 56] = .ok [⟨.TokenNumber, 0, 19⟩] ∧
      containsFloatCharsBytes [57, 50, 50, 51, 51, 55, 50, 48, 51, 54, 56,
        53, 52, 55, 55, 53, 56, 48, 56] = false ∧
      parseNumberLex [57, 50, 50, 51, 51, 55, 50, 48, 51, 54, 56, 53, 52,
        55, 55, 53, 56, 48, 56] =
        .ok (.float [57, 50, 50, 51, 51, 55, 50, 48, 51, 54, 56, 53, 52, 55,
          55, 53, 56, 48, 56]) :=
  ⟨rfl, rfl, rfl⟩

/-! Quote-mask characterization (C5, amended). -/

lemma getD_replicate_zero (n q : Nat) :
    (List.replicate n (0 : Nat)).getD q 0 = 0 := by
  simp only [List.getD_eq_getElem?_getD, List.getElem?_replicate]
  split <;> simp

lemma maskBit_replicate_zero (n q : Nat) :
    maskBit (List.replicate n 0) q = false := by
  simp [maskBit, getD_replicate_zero]

lemma testBit_one_shiftLeft (b q : Nat) :
    (1 <<< b).testBit q = decide (b = q) := by
  rw [Nat.shiftLeft_eq, one_mul]
  rcases eq_or_ne b q with h | h
  · simp [h, Nat.testBit_two_pow_self]
  · simp [h, Nat.testBit_two_pow_of_ne h]

lemma maskBit_mark (masks : List Nat) (i q : Nat) (h : i / 64 < masks.length) :
    maskBit (masks.set (i / 64) (masks.getD (i / 64) 0 ||| 1 <<< (i % 64))) q
      = (maskBit masks q || (q == i)) := by
  unfold maskBit
  rcases eq_or_ne (q / 64) (i / 64) with hdiv | hdiv
  · rw [hdiv]
    rw [show ((masks.set (i / 64) (masks.getD (i / 64) 0 ||| 1 <<< (i % 64))).getD
        (i / 64) 0) = masks.getD (i / 64) 0 ||| 1 <<< (i % 64) by
      simp [List.getD_eq_getElem?_getD, List.getElem?_set_self', h,
        List.getElem?_eq_getElem]]
    rw [Nat.testBit_or, testBit_one_shiftLeft]
    rcases eq_or_ne (i % 64) (q % 64) with hm | hm
    · have hq : q = i := by omega
      simp [hq]
    · have hq : q ≠ i := by omega
      simp [hm, hq]
  · rw [show ((masks.set (i / 64) (masks.getD (i / 64) 0 ||| 1 <<< (i % 64))).getD
        (q / 64) 0) = masks.getD (q / 64) 0 by
      simp [List.getD_eq_getElem?_getD, List.getElem?_set_ne (Ne.symm hdiv)]]
    have hq : q ≠ i := by
      intro hqi; exact hdiv (by rw [hqi])
    simp [hq, beq_iff_eq]

lemma quoteGo_maskBit :
    ∀ (l : List Nat) (i : Nat) (inS esc : Bool) (masks : List Nat) (q : Nat),
      i + l.length ≤ 64 * masks.length →
      maskBit (quoteGo l i inS esc masks) q
        = (maskBit masks q || quoteMarked l i inS esc q) := by
  intro l
  induction l with
  | nil =>
    intro i inS esc masks q _
    simp [quoteGo, quoteMarked]
  | cons b rest ih =>
    intro i inS esc masks q h
    have hlen : (b :: rest).length = rest.length + 1 := rfl
    have hrest : i + 1 + rest.length ≤ 64 * masks.length := by
      rw [hlen] at h; omega
    simp only [quoteGo, quoteMarked]
    by_cases hesc : esc
    · simp only [hesc, if_true]
      exact ih (i + 1) inS false masks q hrest
    · simp only [hesc, if_false]
      by_cases hbs : (b == 92 && inS) = true
      · simp only [hbs, if_true]
        exact ih (i + 1) inS true masks q hrest
      · simp only [Bool.not_eq_true] at hbs
        simp only [hbs, Bool.false_eq_true, if_false]
        by_cases hbq : (b == 34) = true
        · simp only [hbq, if_true]
          have hdiv : i / 64 < masks.length := by
            have hi : i < 64 * masks.length := by rw [hlen] at h; omega
            omega
          have hset : (masks.set (i / 64)
              (masks.getD (i / 64) 0 ||| 1 <<< (i % 64))).length
                = masks.length := List.length_set masks _ _
          rw [ih (i + 1) (!inS) false _ q (by rw [hset]; exact hrest)]
          rw [maskBit_mark masks i q hdiv]
          rw [Bool.or_assoc]
        · simp only [Bool.not_eq_true] at hbq
          simp only [hbq, Bool.false_eq_true, if_false]
          exact ih (i + 1) inS false masks q hrest

/-- C5 (amended): bit i of the scalar quote mask is set exactly when byte i
is a quote that the scan's inString / escaped state machine treats as
unescaped — the scalar mask generator does resolve backslash escaping, so a
quote preceded by a backslash inside a string is not marked. -/
theorem quoteMask_escape_aware_spec :
    ∀ (data : List Nat) (q : Nat),
      maskBit (generateQuoteMaskScalar data) q
        = quoteMarked data 0 false false q := by
  intro data q
  unfold generateQuoteMaskScalar
  rw [quoteGo_maskBit data 0 false false _ q]
  · rw [maskBit_replicate_zero]
    simp
  · rw [List.length_replicate]
    omega

/-! Leading-integer characterization (C6, amended; also used by C7). -/

/-- The int64 maximum, 2^63 - 1, the bound of the overflow check in both
parseIntegerScalar variants. -/
abbrev maxInt64 : Nat := 9223372036854775807

/-- Whether the input starts with a minus sign (claim wording: the
optional leading '-'). -/
def negOf (data : List Nat) : Bool := decide (data.head? = some 45)

/-- The input after the optional leading minus sign. -/
def bodyOf (data : List Nat) : List Nat :=
  if negOf data then data.tail else data

/-- The maximal digit prefix after the optional minus (claim wording:
stopping at the first non-digit). -/
def digitsOf (data : List Nat) : List Nat := (bodyOf data).takeWhile isDigit

/-- Decimal value of the maximal digit prefix. -/
def magOf (data : List Nat) : Nat := digitsVal 0 (digitsOf data)

/-- Consumed flag of the arm64 scalar variant per the (amended) claim:
non-empty, not a bare minus, at least one digit, and no int64 overflow. -/
def specConsumedArm (data : List Nat) : Bool :=
  !data.isEmpty && !(decide (data = [45])) && !(digitsOf data).isEmpty &&
    decide (magOf data ≤ maxInt64)

/-- Consumed flag of the portable (pool.go) variant per the amended claim:
non-empty, not a bare minus, and no int64 overflow — a missing digit does
not clear the flag. -/
def specConsumedPool (data : List Nat) : Bool :=
  !data.isEmpty && !(decide (data = [45])) && decide (magOf data ≤ maxInt64)

/-- Signed value of the maximal digit prefix. -/
def specIntValue (data : List Nat) : Int :=
  if negOf data then -(magOf data : Int) else (magOf data : Int)

lemma isDigit_eq_decide (c : Nat) : isDigit c = decide (48 ≤ c ∧ c ≤ 57) := by
  simp [isDigit, Bool.decide_and]

lemma digitsVal_cons (acc c : Nat) (ds : List Nat) :
    digitsVal acc (c :: ds) = digitsVal (acc * 10 + (c - 48)) ds := rfl

lemma digitsVal_le (ds : List Nat) : ∀ acc, acc ≤ digitsVal acc ds := by
  induction ds with
  | nil => intro acc; simp [digitsVal]
  | cons c ds ih =>
    intro acc
    rw [digitsVal_cons]
    have := ih (acc * 10 + (c - 48))
    omega

lemma scanDigits_spec :
    ∀ (l : List Nat) (acc : Nat) (parsed : Bool), acc ≤ maxInt64 →
      scanDigits l acc parsed =
        (if digitsVal acc (l.takeWhile isDigit) ≤ maxInt64
         then some (digitsVal acc (l.takeWhile isDigit),
             parsed || !(l.takeWhile isDigit).isEmpty)
         else none) := by
  intro l
  induction l with
  | nil =>
    intro acc parsed hacc
    simp [scanDigits, digitsVal, hacc]
  | cons c rest ih =>
    intro acc parsed hacc
    by_cases hdig : (c < 48 || 57 < c) = true
    · have hdig' : c < 48 ∨ 57 < c := by simpa using hdig
      have hd : isDigit c = false := by
        rw [isDigit_eq_decide]
        exact decide_eq_false (by omega)
      simp [scanDigits, hdig, List.takeWhile_cons, hd, digitsVal, hacc]
    · have hdig' : ¬(c < 48 ∨ 57 < c) := by simpa using hdig
      have hd : isDigit c = true := by
        rw [isDigit_eq_decide]
        exact decide_eq_true (by omega)
      have htw : (c :: rest).takeWhile isDigit
          = c :: rest.takeWhile isDigit := by
        rw [List.takeWhile_cons, hd]
        simp
      by_cases hov : ((9223372036854775807 - (c - 48)) / 10 < acc)
      · have hmul : 9223372036854775807 - (c - 48) < acc * 10 :=
          (Nat.div_lt_iff_lt_mul (by norm_num)).mp hov
        have hgt : maxInt64 < acc * 10 + (c - 48) := by
          simp only [maxInt64]
          omega
        have hbig : maxInt64 < digitsVal acc ((c :: rest).takeWhile isDigit) := by
          rw [htw, digitsVal_cons]
          have := digitsVal_le (rest.takeWhile isDigit) (acc * 10 + (c - 48))
          omega
        have hlhs : scanDigits (c :: rest) acc parsed = none := by
          simp [scanDigits, hdig, hov]
        rw [hlhs, if_neg (by omega)]
      · have hle : acc ≤ (9223372036854775807 - (c - 48)) / 10 := by omega
        have hacc2 : acc * 10 + (c - 48) ≤ maxInt64 := by
          have := (Nat.le_div_iff_mul_le (by norm_num : 0 < 10)).mp hle
          simp only [maxInt64]
          omega
        have hlhs : scanDigits (c :: rest) acc parsed
            = scanDigits rest (acc * 10 + (c - 48)) true := by
          simp [scanDigits, hdig, hov]
        rw [hlhs, ih _ true hacc2, htw, digitsVal_cons]
        simp

lemma parseIntegerScalar_spec (data : List Nat) :
    parseIntegerScalar data
      = (if specConsumedArm data then specIntValue data else 0,
         specConsumedArm data) := by
  rcases data with _ | ⟨c0, rest⟩
  · simp [parseIntegerScalar, specConsumedArm]
  · by_cases hc : c0 = 45
    · subst hc
      rcases rest with _ | ⟨c1, rest1⟩
      · simp [parseIntegerScalar, specConsumedArm]
      · have hne45 : decide ((45 : Nat) :: c1 :: rest1 = [45]) = false := by
          simp
        have hneg : negOf (45 :: c1 :: rest1) = true := by simp [negOf]
        have hd : digitsOf (45 :: c1 :: rest1)
            = (c1 :: rest1).takeWhile isDigit := by
          simp [digitsOf, bodyOf, hneg]
        have hm : magOf (45 :: c1 :: rest1)
            = digitsVal 0 ((c1 :: rest1).takeWhile isDigit) := by
          simp [magOf, hd]
        have hsd := scanDigits_spec (c1 :: rest1) 0 false (by norm_num)
        by_cases hov : digitsVal 0 ((c1 :: rest1).takeWhile isDigit) ≤ maxInt64
        · rw [if_pos hov] at hsd
          have hlhs : parseIntegerScalar (45 :: c1 :: rest1)
              = (-(digitsVal 0 ((c1 :: rest1).takeWhile isDigit) : Int),
                 !((c1 :: rest1).takeWhile isDigit).isEmpty) := by
            simp [parseIntegerScalar, hsd]
          rw [hlhs]
          have hcons : specConsumedArm (45 :: c1 :: rest1)
              = !((c1 :: rest1).takeWhile isDigit).isEmpty := by
            simp [specConsumedArm, hne45, hd, hm, hov]
          rw [hcons]
          by_cases htw : ((c1 :: rest1).takeWhile isDigit).isEmpty = true
          · have h0 : digitsVal 0 ((c1 :: rest1).takeWhile isDigit) = 0 := by
              rw [List.isEmpty_iff.mp htw]; rfl
            simp [htw, h0]
          · simp only [Bool.not_eq_true] at htw
            simp [htw, specIntValue, hneg, hm]
        · rw [if_neg hov] at hsd
          have hlhs : parseIntegerScalar (45 :: c1 :: rest1) = (0, false) := by
            simp [parseIntegerScalar, hsd]
          have hcons : specConsumedArm (45 :: c1 :: rest1) = false := by
            simp [specConsumedArm, hm, hov]
          rw [hlhs, hcons]
          simp
    · have hbeq : (c0 == 45) = false := by simp [hc]
      have hneg : negOf (c0 :: rest) = false := by simp [negOf, hc]
      have hne45 : decide (c0 :: rest = [45]) = false := by simp [hc]
      have hd : digitsOf (c0 :: rest) = (c0 :: rest).takeWhile isDigit := by
        simp [digitsOf, bodyOf, hneg]
      have hm : magOf (c0 :: rest)
          = digitsVal 0 ((c0 :: rest).takeWhile isDigit) := by
        simp [magOf, hd]
      have hsd := scanDigits_spec (c0 :: rest) 0 false (by norm_num)
      by_cases hov : digitsVal 0 ((c0 :: rest).takeWhile isDigit) ≤ maxInt64
      · rw [if_pos hov] at hsd
        have hlhs : parseIntegerScalar (c0 :: rest)
            = ((digitsVal 0 ((c0 :: rest).takeWhile isDigit) : Int),
               !((c0 :: rest).takeWhile isDigit).isEmpty) := by
          simp [parseIntegerScalar, hbeq, hsd]
        rw [hlhs]
        have hcons : specConsumedArm (c0 :: rest)
            = !((c0 :: rest).takeWhile isDigit).isEmpty := by
          simp [specConsumedArm, hne45, hd, hm, hov, hc]
        rw [hcons]
        by_cases htw : ((c0 :: rest).takeWhile isDigit).isEmpty = true
        · have h0 : digitsVal 0 ((c0 :: rest).takeWhile isDigit) = 0 := by
            rw [List.isEmpty_iff.mp htw]; rfl
          simp [htw, h0]
        · simp only [Bool.not_eq_true] at htw
          simp [htw, specIntValue, hneg, hm]
      · rw [if_neg hov] at hsd
        have hlhs : parseIntegerScalar (c0 :: rest) = (0, false) := by
          simp [parseIntegerScalar, hbeq, hsd]
        have hcons : specConsumedArm (c0 :: rest) = false := by
          simp [specConsumedArm, hm, hov]
        rw [hlhs, hcons]
        simp

lemma parseIntegerScalarPool_spec (data : List Nat) :
    parseIntegerScalarPool data
      = (if specConsumedPool data then specIntValue data else 0,
         specConsumedPool data) := by
  rcases data with _ | ⟨c0, rest⟩
  · simp [parseIntegerScalarPool, specConsumedPool]
  · by_cases hc : c0 = 45
    · subst hc
      rcases rest with _ | ⟨c1, rest1⟩
      · simp [parseIntegerScalarPool, specConsumedPool]
      · have hne45 : decide ((45 : Nat) :: c1 :: rest1 = [45]) = false := by
          simp
        have hneg : negOf (45 :: c1 :: rest1) = true := by simp [negOf]
        have hd : digitsOf (45 :: c1 :: rest1)
            = (c1 :: rest1).takeWhile isDigit := by
          simp [digitsOf, bodyOf, hneg]
        have hm : magOf (45 :: c1 :: rest1)
            = digitsVal 0 ((c1 :: rest1).takeWhile isDigit) := by
          simp [magOf, hd]
        have hsd := scanDigits_spec (c1 :: rest1) 0 false (by norm_num)
        by_cases hov : digitsVal 0 ((c1 :: rest1).takeWhile isDigit) ≤ maxInt64
        · rw [if_pos hov] at hsd
          have hlhs : parseIntegerScalarPool (45 :: c1 :: rest1)
              = (-(digitsVal 0 ((c1 :: rest1).takeWhile isDigit) : Int),
                 true) := by
            simp [parseIntegerScalarPool, hsd]
          have hcons : specConsumedPool (45 :: c1 :: rest1) = true := by
            simp [specConsumedPool, hne45, hm, hov]
          rw [hlhs, hcons]
          simp [specIntValue, hneg, hm]
        · rw [if_neg hov] at hsd
          have hlhs : parseIntegerScalarPool (45 :: c1 :: rest1)
              = (0, false) := by
            simp [parseIntegerScalarPool, hsd]
          have hcons : specConsumedPool (45 :: c1 :: rest1) = false := by
            simp [specConsumedPool, hm, hov]
          rw [hlhs, hcons]
          simp
    · have hbeq : (c0 == 45) = false := by simp [hc]
      have hneg : negOf (c0 :: rest) = false := by simp [negOf, hc]
      have hne45 : decide (c0 :: rest = [45]) = false := by simp [hc]
      have hd : digitsOf (c0 :: rest) = (c0 :: rest).takeWhile isDigit := by
        simp [digitsOf, bodyOf, hneg]
      have hm : magOf (c0 :: rest)
          = digitsVal 0 ((c0 :: rest).takeWhile isDigit) := by
        simp [magOf, hd]
      have hsd := scanDigits_spec (c0 :: rest) 0 false (by norm_num)
      by_cases hov : digitsVal 0 ((c0 :: rest).takeWhile isDigit) ≤ maxInt64
      · rw [if_pos hov] at hsd
        have hlhs : parseIntegerScalarPool (c0 :: rest)
            = ((digitsVal 0 ((c0 :: rest).takeWhile isDigit) : Int), true) := by
          simp [parseIntegerScalarPool, hbeq, hsd]
        have hcons : specConsumedPool (c0 :: rest) = true := by
          simp [specConsumedPool, hne45, hm, hov, hc]
        rw [hlhs, hcons]
        simp [specIntValue, hneg, hm]
      · rw [if_neg hov] at hsd
        have hlhs : parseIntegerScalarPool (c0 :: rest) = (0, false) := by
          simp [parseIntegerScalarPool, hbeq, hsd]
        have hcons : specConsumedPool (c0 :: rest) = false := by
          simp [specConsumedPool, hm, hov]
        rw [hlhs, hcons]
        simp

/-- C6 (amended): the arm64 scalar leading-integer parse returns
consumed=false exactly on empty input, a bare minus, a missing first digit
after the optional minus, or int64 overflow of the digit prefix, and
otherwise the signed value of the maximal digit prefix; the portable
(pool.go) variant differs exactly in the missing-digit case, where it
returns consumed=true with value 0. -/
theorem parseIntegerScalar_variants_spec :
    ∀ data : List Nat,
      parseIntegerScalar data
        = (if specConsumedArm data then specIntValue data else 0,
           specConsumedArm data) ∧
      parseIntegerScalarPool data
        = (if specConsumedPool data then specIntValue data else 0,
           specConsumedPool data) :=
  fun data => ⟨parseIntegerScalar_spec data, parseIntegerScalarPool_spec data⟩

/-! Number materialization (C7, amended). -/

/-- Integer-shaped lexeme per the claim's wording: an optional leading
minus followed by one or more ASCII digits (exactly the number lexemes the
tokenizer accepts that contain none of '.', 'e', 'E'). -/
def intLexeme (l : List Nat) : Bool :=
  if l.getD 0 0 == 45 && !l.isEmpty then
    !(l.tail).isEmpty && (l.tail).all isDigit
  else !l.isEmpty && l.all isDigit

/-- Whether the signed value of the lexeme's digit prefix fits in a signed
64-bit integer: magnitude at most 2^63 when negative, at most 2^63 - 1
otherwise. -/
def fitsInt64 (lex : List Nat) : Bool :=
  if negOf lex then decide (magOf lex ≤ 9223372036854775808)
  else decide (magOf lex ≤ maxInt64)

lemma no_float_of_all_digits (l : List Nat) (h : l.all isDigit = true) :
    (l.any (fun c => c == 46 || c == 101 || c == 69)) = false := by
  rw [Bool.eq_false_iff]
  intro hany
  rw [List.any_eq_true] at hany
  obtain ⟨c, hcmem, hcp⟩ := hany
  rw [List.all_eq_true] at h
  have hc := h c hcmem
  rw [isDigit_eq_decide] at hc
  simp only [decide_eq_true_eq] at hc
  simp only [Bool.or_eq_true, beq_iff_eq] at hcp
  omega

lemma takeWhile_of_all (l : List Nat) (h : l.all isDigit = true) :
    l.takeWhile isDigit = l := by
  induction l with
  | nil => rfl
  | cons c r ih =>
    rw [List.all_cons, Bool.and_eq_true] at h
    rw [List.takeWhile_cons, h.1]
    simp [ih h.2]

lemma parseNumberLex_reduce (lex : List Nat) (v : Int) (b : Bool)
    (hnf : containsFloatCharsBytes lex = false)
    (hsp : SIMDParseInteger lex = (v, b)) :
    parseNumberLex lex
      = (if b then .ok (.int v)
         else match goParseInt64 lex with
           | some w => Except.ok (JValue.int w)
           | none => goParseFloat lex) := by
  rw [parseNumberLex, hnf]
  simp only [Bool.not_false, if_true, hsp]
  cases b <;> simp

/-- C7 (amended): a tokenizer-accepted number lexeme without '.', 'e', 'E'
is materialized as an Integer exactly when its value fits in the signed
64-bit range (through the scalar fast path, or through the strconv.ParseInt
fallback for -2^63); an integer-shaped lexeme out of that range falls
through to the 64-bit float parse, which yields a Float when the value is
within float64 range and the strconv range error otherwise (a 310-digit
integer makes parseNumber fail); a lexeme containing a float character is
likewise handed to the float parse, yielding a Float within float64 range
and the range error beyond it (e.g. on 1e999). -/
theorem parseNumber_tag_spec :
    ∀ lex : List Nat,
      (intLexeme lex = true →
        parseNumberLex lex
          = (if fitsInt64 lex then .ok (.int (specIntValue lex))
             else if parseFloatOverflow lex then .error "value out of range"
             else .ok (.float lex))) ∧
      (containsFloatCharsBytes lex = true →
        parseNumberLex lex
          = (if parseFloatOverflow lex then .error "value out of range"
             else .ok (.float lex))) := by
  intro lex
  constructor
  · intro hlex
    rcases lex with _ | ⟨c0, rest⟩
    · simp [intLexeme] at hlex
    · by_cases hc : c0 = 45
      · subst hc
        rw [intLexeme] at hlex
        simp only [List.getD_cons_zero, beq_self_eq_true, List.isEmpty_cons,
          Bool.not_false, Bool.and_true, if_true, List.tail_cons,
          Bool.and_eq_true, Bool.not_eq_true'] at hlex
        obtain ⟨hr1, hr2⟩ := hlex
        have hrne : rest ≠ [] := by
          intro hx; rw [hx] at hr1; simp at hr1
        have hnf : containsFloatCharsBytes (45 :: rest) = false := by
          rw [containsFloatCharsBytes, List.any_cons]
          rw [no_float_of_all_digits rest hr2]
          simp
        have hneg : negOf (45 :: rest) = true := by simp [negOf]
        have hdig : digitsOf (45 :: rest) = rest := by
          simp [digitsOf, bodyOf, hneg, takeWhile_of_all rest hr2]
        have hmag : magOf (45 :: rest) = digitsVal 0 rest := by
          simp [magOf, hdig]
        have hcons : specConsumedArm (45 :: rest)
            = decide (magOf (45 :: rest) ≤ maxInt64) := by
          simp [specConsumedArm, hdig, hrne, hr1]
        have hsp := parseIntegerScalar_spec (45 :: rest)
        rw [hcons] at hsp
        by_cases hm : magOf (45 :: rest) ≤ maxInt64
        · rw [decide_eq_true hm] at hsp
          simp only [if_true] at hsp
          rw [parseNumberLex_reduce _ _ _ hnf hsp]
          have hfits : fitsInt64 (45 :: rest) = true := by
            simp only [fitsInt64, hneg, if_true]
            exact decide_eq_true (by simp only [maxInt64] at hm; omega)
          rw [hfits]
          simp
        · rw [decide_eq_false hm] at hsp
          simp only [Bool.false_eq_true, if_false] at hsp
          rw [parseNumberLex_reduce _ _ _ hnf hsp]
          have hgp : goParseInt64 (45 :: rest)
              = (if digitsVal 0 rest ≤ 9223372036854775808
                 then some (-(digitsVal 0 rest : Int)) else none) := by
            rw [goParseInt64]
            simp only [List.isEmpty_cons, Bool.false_eq_true, if_false,
              List.getD_cons_zero, beq_self_eq_true, Bool.true_or, if_true,
              List.tail_cons]
            rw [if_neg (by simp [hr1, hr2])]
            rfl
          rw [hgp]
          have hfits : fitsInt64 (45 :: rest)
              = decide (digitsVal 0 rest ≤ 9223372036854775808) := by
            simp [fitsInt64, hneg, hmag]
          rw [hfits]
          by_cases hm2 : digitsVal 0 rest ≤ 9223372036854775808
          · rw [if_pos hm2, decide_eq_true hm2]
            simp [specIntValue, hneg, hmag]
          · rw [if_neg hm2, decide_eq_false hm2]
            simp [goParseFloat]
      · rw [intLexeme] at hlex
        have hc0 : ((c0 :: rest).getD 0 0 == 45) = false := by
          simp [hc]
        rw [hc0] at hlex
        simp only [Bool.false_and, Bool.false_eq_true, if_false,
          List.isEmpty_cons, Bool.not_false, Bool.true_and] at hlex
        have hall : (c0 :: rest).all isDigit = true := hlex
        have hd0' : 48 ≤ c0 ∧ c0 ≤ 57 := by
          have hd0 : isDigit c0 = true := by
            rw [List.all_cons, Bool.and_eq_true] at hall
            exact hall.1
          rw [isDigit_eq_decide] at hd0
          simpa using hd0
        have hnf : containsFloatCharsBytes (c0 :: rest) = false :=
          no_float_of_all_digits _ hall
        have hneg : negOf (c0 :: rest) = false := by simp [negOf, hc]
        have hdig : digitsOf (c0 :: rest) = c0 :: rest := by
          simp [digitsOf, bodyOf, hneg, takeWhile_of_all _ hall]
        have hmag : magOf (c0 :: rest) = digitsVal 0 (c0 :: rest) := by
          simp [magOf, hdig]
        have hcons : specConsumedArm (c0 :: rest)
            = decide (magOf (c0 :: rest) ≤ maxInt64) := by
          simp [specConsumedArm, hdig, hc]
        have hsp := parseIntegerScalar_spec (c0 :: rest)
        rw [hcons] at hsp
        by_cases hm : magOf (c0 :: rest) ≤ maxInt64
        · rw [decide_eq_true hm] at hsp
          simp only [if_true] at hsp
          rw [parseNumberLex_reduce _ _ _ hnf hsp]
          have hfits : fitsInt64 (c0 :: rest) = true := by
            simp only [fitsInt64, hneg, Bool.false_eq_true, if_false]
            exact decide_eq_true hm
          rw [hfits]
          simp
        · rw [decide_eq_false hm] at hsp
          simp only [Bool.false_eq_true, if_false] at hsp
          rw [parseNumberLex_reduce _ _ _ hnf hsp]
          have h45 : (c0 == 45) = false := by simp [hc]
          have h43 : (c0 == 43) = false := by
            simp only [beq_eq_false_iff_ne, ne_eq]
            omega
          have hfold : (c0 :: rest).foldl (fun a c => a * 10 + (c - 48)) 0
              = magOf (c0 :: rest) := by rw [hmag]; rfl
          have hgp : goParseInt64 (c0 :: rest) = none := by
            simp only [goParseInt64, List.isEmpty_cons, List.getD_cons_zero,
              h45, h43, Bool.or_self, Bool.false_eq_true, if_false, hall,
              Bool.not_true, Bool.or_false, hfold]
            rw [if_neg (by simpa [maxInt64] using hm)]
          rw [hgp]
          have hfits : fitsInt64 (c0 :: rest) = false := by
            simp only [fitsInt64, hneg, Bool.false_eq_true, if_false]
            exact decide_eq_false hm
          rw [hfits]
          simp [goParseFloat]
  · intro hfl
    rw [parseNumberLex, hfl]
    simp [goParseFloat]

/-- Witness for the amended C7 theorem at the concrete lexeme
9223372036854775808 (an integer-shaped lexeme that does not fit in int64
but is within float64 range, and is therefore materialized as a Float). -/
theorem parseNumber_tag_spec_witness :
    intLexeme [57, 50, 50, 51, 51, 55, 50, 48, 51, 54, 56, 53, 52, 55, 55,
        53, 56, 48, 56] = true ∧
      parseNumberLex [57, 50, 50, 51, 51, 55, 50, 48, 51, 54, 56, 53, 52,
          55, 55, 53, 56, 48, 56]
        = (if fitsInt64 [57, 50, 50, 51, 51, 55, 50, 48, 51, 54, 56, 53,
              52, 55, 55, 53, 56, 48, 56]
           then .ok (.int (specIntValue [57, 50, 50, 51, 51, 55, 50, 48, 51,
              54, 56, 53, 52, 55, 55, 53, 56, 48, 56]))
           else if parseFloatOverflow [57, 50, 50, 51, 51, 55, 50, 48, 51,
              54, 56, 53, 52, 55, 55, 53, 56, 48, 56] then
             .error "value out of range"
           else .ok (.float [57, 50, 50, 51, 51, 55, 50, 48, 51, 54, 56, 53,
              52, 55, 55, 53, 56, 48, 56])) :=
  ⟨by decide,
   (parseNumber_tag_spec [57, 50, 50, 51, 51, 55, 50, 48, 51, 54, 56, 53,
      52, 55, 55, 53, 56, 48, 56]).1 (by decide)⟩

example : parseNumberLex [49, 101, 57, 57, 57] = .error "value out of range" := rfl
example : Parse [49, 101, 57, 57, 57] = .error "value out of range" := rfl
set_option exponentiation.threshold 1100 in
set_option maxRecDepth 4000 in
example : parseNumberLex [49, 101, 51, 48, 56] = .ok (.float [49, 101, 51, 48, 56]) := rfl
example : Parse [49, 46, 53] = .ok (.float [49, 46, 53]) := rfl

/-- C8: when tokenization succeeds and the token sequence begins with one
complete JSON value (the recursive descent from token 0 succeeds, returning
a value and the cursor after it), Parse succeeds with that first value —
whatever tokens remain after the cursor are ignored. -/
theorem parse_ignores_trailing_tokens :
    ∀ (data : List Nat) (tokens : List Token) (v : JValue) (n : Nat),
      SimpleTokenize data = .ok tokens →
      parseRun (2 * tokens.length + 2) .value tokens data 0 = .ok (v, n) →
      Parse data = .ok v := by
  intro data tokens v n htok hrun
  rw [Parse, htok]
  have hne : (tokens.length == 0) = false := by
    rcases tokens with _ | ⟨t, ts⟩
    · simp [parseRun] at hrun
    · simp
  simp only [hne, Bool.false_eq_true, if_false, hrun]

/-- Witness for C8 at the buffer "1 2": two Number tokens, the first value
is Integer 1, and Parse returns it with no error although the second token
is never consumed. -/
theorem parse_ignores_trailing_tokens_witness :
    SimpleTokenize [49, 32, 50]
        = .ok [⟨.TokenNumber, 0, 1⟩, ⟨.TokenNumber, 2, 3⟩] ∧
      parseRun 6 .value [⟨.TokenNumber, 0, 1⟩, ⟨.TokenNumber, 2, 3⟩]
          [49, 32, 50] 0 = .ok (.int 1, 1) ∧
      Parse [49, 32, 50] = .ok (.int 1) :=
  ⟨rfl, rfl,
   parse_ignores_trailing_tokens [49, 32, 50]
     [⟨.TokenNumber, 0, 1⟩, ⟨.TokenNumber, 2, 3⟩] (.int 1) 1 rfl rfl⟩

lemma skipWS_all_ws (data : List Nat)
    (h : ∀ b ∈ data, isWhitespace b = true) :
    ∀ fuel i, data.length ≤ fuel + i → i ≤ data.length →
      skipWS data fuel i = data.length := by
  intro fuel
  induction fuel with
  | zero =>
    intro i h1 h2
    rw [skipWS]
    omega
  | succ f ih =>
    intro i h1 h2
    rw [skipWS]
    by_cases hi : i < data.length
    · have hmem : data.getD i 0 ∈ data := by
        rw [List.getD_eq_getElem?_getD, List.getElem?_eq_getElem hi]
        exact List.getElem_mem hi
      have hb : isWhitespace (data.getD i 0) = true := h _ hmem
      rw [if_pos (by rw [decide_eq_true hi, Bool.true_and]; exact hb)]
      exact ih (i + 1) (by omega) (by omega)
    · rw [if_neg (by simp [hi])]
      omega

/-- C10: a non-empty buffer of only whitespace bytes tokenizes to the empty
token sequence with no error, so Validate returns true while Parse fails
with "empty JSON"; the empty buffer is the only contentless input on which
Validate returns false (SimpleTokenize rejects it as "empty input"). -/
theorem whitespace_only_validate_true_parse_error :
    ∀ data : List Nat, data ≠ [] → (∀ b ∈ data, isWhitespace b = true) →
      SimpleTokenize data = .ok [] ∧ Validate data = true ∧
        Parse data = .error "empty JSON" ∧ Validate [] = false := by
  intro data hne hws
  have hlen : data.length ≠ 0 := by
    simpa [List.length_eq_zero] using hne
  have hc : (data.length == 0) = false := by simp [hlen]
  have htok : SimpleTokenize data = .ok [] := by
    rw [SimpleTokenize, hc]
    simp only [Bool.false_eq_true, if_false]
    rw [tokLoop]
    simp only [Nat.sub_zero]
    rw [skipWS_all_ws data hws data.length 0 (by omega) (by omega)]
    simp
  refine ⟨htok, ?_, ?_, rfl⟩
  · rw [Validate, htok]
    rfl
  · rw [Parse, htok]
    rfl

/-- Witness for C10 at the one-byte buffer consisting of a single space. -/
theorem whitespace_only_witness :
    SimpleTokenize [32] = .ok [] ∧ Validate [32] = true ∧
      Parse [32] = .error "empty JSON" ∧ Validate [] = false :=
  whitespace_only_validate_true_parse_error [32] (by decide)
    (by intro b hb
        simp only [List.mem_singleton] at hb
        subst hb
        rfl)

/-! Token well-formedness and ordering (C9). -/

lemma skipWS_ge (data : List Nat) :
    ∀ fuel i, i ≤ skipWS data fuel i := by
  intro fuel
  induction fuel with
  | zero => intro i; rw [skipWS]
  | succ f ih =>
    intro i
    rw [skipWS]
    split
    · have := ih (i + 1)
      omega
    · omega

lemma skipWS_le (data : List Nat) :
    ∀ fuel i, i ≤ data.length → skipWS data fuel i ≤ data.length := by
  intro fuel
  induction fuel with
  | zero => intro i hi; rw [skipWS]; exact hi
  | succ f ih =>
    intro i hi
    rw [skipWS]
    split
    · rename_i hcond
      have hlt : i < data.length := by
        rcases Bool.and_eq_true .. ▸ hcond with ⟨h1, _⟩
        exact of_decide_eq_true h1
      exact ih (i + 1) (by omega)
    · exact hi

lemma stringEnd_ge (data : List Nat) :
    ∀ fuel i, i ≤ stringEnd data fuel i := by
  intro fuel
  induction fuel with
  | zero => intro i; rw [stringEnd]
  | succ f ih =>
    intro i
    rw [stringEnd]
    split
    · split
      · omega
      · have := ih (i + 1)
        omega
    · omega

lemma stringEnd_le (data : List Nat) :
    ∀ fuel i, i ≤ data.length → stringEnd data fuel i ≤ data.length := by
  intro fuel
  induction fuel with
  | zero => intro i hi; rw [stringEnd]; exact hi
  | succ f ih =>
    intro i hi
    rw [stringEnd]
    split
    · rename_i hlt
      split
      · omega
      · exact ih (i + 1) (by omega)
    · exact hi

lemma length_takeWhile_le_self (p : Nat → Bool) (l : List Nat) :
    (l.takeWhile p).length ≤ l.length := by
  induction l with
  | nil => simp
  | cons a l ih =>
    rw [List.takeWhile_cons]
    split
    · simp
      omega
    · simp

lemma digitRun_le (data : List Nat) (i : Nat) (hi : i ≤ data.length) :
    i + digitRun data i ≤ data.length := by
  have h1 : digitRun data i ≤ (data.drop i).length :=
    length_takeWhile_le_self isDigit (data.drop i)
  rw [List.length_drop] at h1
  omega

lemma scanNumEnd_bounds (data : List Nat) (start i4 j : Nat)
    (h : scanNumEnd data start i4 = .ok j) : start < j ∧ j = i4 := by
  rw [scanNumEnd] at h
  split at h
  · exact absurd h (by simp)
  · rename_i hcond
    injection h with h'
    subst h'
    constructor
    · by_contra hle
      exact hcond (by simp; omega)
    · rfl

lemma scanExpDigits_bounds (data : List Nat) (start i3s j : Nat)
    (h : scanExpDigits data start i3s = .ok j) :
    start < j ∧ j ≤ data.length := by
  rw [scanExpDigits] at h
  split at h
  · exact absurd h (by simp)
  · rename_i hdig
    have hlt : ¬ data.length ≤ i3s := by
      intro hx
      exact hdig (by simp [hx])
    obtain ⟨hs, hj⟩ := scanNumEnd_bounds data start _ j h
    subst hj
    exact ⟨hs, digitRun_le data i3s (by omega)⟩

lemma scanExp_bounds (data : List Nat) (start i3 j : Nat)
    (hi : i3 ≤ data.length) (h : scanExp data start i3 = .ok j) :
    start < j ∧ j ≤ data.length := by
  rw [scanExp] at h
  split at h
  · split at h
    · exact scanExpDigits_bounds data start _ j h
    · exact scanExpDigits_bounds data start _ j h
  · obtain ⟨hs, hj⟩ := scanNumEnd_bounds data start i3 j h
    exact ⟨hs, by omega⟩

lemma scanFrac_bounds (data : List Nat) (start i2 j : Nat)
    (hi : i2 ≤ data.length) (h : scanFrac data start i2 = .ok j) :
    start < j ∧ j ≤ data.length := by
  rw [scanFrac] at h
  split at h
  · split at h
    · exact absurd h (by simp)
    · rename_i hdig
      have hd1 : ¬ data.length ≤ i2 + 1 := by
        intro hx
        exact hdig (by simp [hx])
      exact scanExp_bounds data start _ j
        (digitRun_le data (i2 + 1) (by omega)) h
  · exact scanExp_bounds data start i2 j hi h

lemma scanIntPart_bounds (data : List Nat) (start i0 j : Nat)
    (h : scanIntPart data start i0 = .ok j) :
    start < j ∧ j ≤ data.length := by
  rw [scanIntPart] at h
  split at h
  · exact absurd h (by simp)
  · rename_i hdig
    have hlt : ¬ data.length ≤ i0 := by
      intro hx
      exact hdig (by simp [hx])
    split at h
    · split at h
      · exact absurd h (by simp)
      · exact scanFrac_bounds data start _ j (by omega) h
    · exact scanFrac_bounds data start _ j
        (digitRun_le data i0 (by omega)) h

lemma scanNumber_bounds (data : List Nat) (start j : Nat)
    (h : scanNumber data start = .ok j) :
    start < j ∧ j ≤ data.length := by
  rw [scanNumber] at h
  split at h
  · split at h
    · exact absurd h (by simp)
    · exact scanIntPart_bounds data start _ j h
  · exact scanIntPart_bounds data start start j h

lemma nextToken_bounds (data : List Nat) (lt : TokenType) (i : Nat)
    (hi : i < data.length) (tok : Token) (j : Nat)
    (h : nextToken data lt i (data.getD i 0) = .ok (tok, j)) :
    tok.start = u32 i ∧ tok.endPos = u32 j ∧ i < j ∧ j ≤ data.length := by
  rw [nextToken] at h
  set c := data.getD i 0 with hcdef
  by_cases h1 : (lt == TokenType.TokenColon &&
      (c == 125 || c == 93 || c == 44)) = true
  · rw [if_pos h1] at h
    exact absurd h (by simp)
  rw [if_neg h1] at h
  by_cases h2 : (lt == TokenType.TokenComma && c == 44) = true
  · rw [if_pos h2] at h
    exact absurd h (by simp)
  rw [if_neg h2] at h
  by_cases h3 : (lt == TokenType.TokenComma && c == 125) = true
  · rw [if_pos h3] at h
    exact absurd h (by simp)
  rw [if_neg h3] at h
  by_cases h4 : (lt == TokenType.TokenComma && c == 93) = true
  · rw [if_pos h4] at h
    exact absurd h (by simp)
  rw [if_neg h4] at h
  by_cases h5 : (c == 123) = true
  · rw [if_pos h5] at h
    injection h with h'
    injection h' with ha hb
    subst ha
    subst hb
    exact ⟨rfl, rfl, Nat.lt_succ_self i, hi⟩
  rw [if_neg h5] at h
  by_cases h6 : (c == 125) = true
  · rw [if_pos h6] at h
    injection h with h'
    injection h' with ha hb
    subst ha
    subst hb
    exact ⟨rfl, rfl, Nat.lt_succ_self i, hi⟩
  rw [if_neg h6] at h
  by_cases h7 : (c == 91) = true
  · rw [if_pos h7] at h
    injection h with h'
    injection h' with ha hb
    subst ha
    subst hb
    exact ⟨rfl, rfl, Nat.lt_succ_self i, hi⟩
  rw [if_neg h7] at h
  by_cases h8 : (c == 93) = true
  · rw [if_pos h8] at h
    injection h with h'
    injection h' with ha hb
    subst ha
    subst hb
    exact ⟨rfl, rfl, Nat.lt_succ_self i, hi⟩
  rw [if_neg h8] at h
  by_cases h9 : (c == 58) = true
  · rw [if_pos h9] at h
    injection h with h'
    injection h' with ha hb
    subst ha
    subst hb
    exact ⟨rfl, rfl, Nat.lt_succ_self i, hi⟩
  rw [if_neg h9] at h
  by_cases h10 : (c == 44) = true
  · rw [if_pos h10] at h
    injection h with h'
    injection h' with ha hb
    subst ha
    subst hb
    exact ⟨rfl, rfl, Nat.lt_succ_self i, hi⟩
  rw [if_neg h10] at h
  by_cases h11 : (c == 34) = true
  · rw [if_pos h11] at h
    injection h with h'
    injection h' with ha hb
    subst ha
    subst hb
    refine ⟨rfl, rfl, ?_, ?_⟩
    · have := stringEnd_ge data (data.length - (i + 1)) (i + 1)
      omega
    · exact stringEnd_le data (data.length - (i + 1)) (i + 1) (by omega)
  rw [if_neg h11] at h
  by_cases h12 : (c == 116) = true
  · rw [if_pos h12] at h
    by_cases h12a : (i + 4 ≤ data.length &&
        (data.drop i).take 4 == [116, 114, 117, 101]) = true
    · rw [if_pos h12a] at h
      have h4 : i + 4 ≤ data.length := by
        rcases Bool.and_eq_true .. ▸ h12a with ⟨hx, _⟩
        exact of_decide_eq_true hx
      injection h with h'
      injection h' with ha hb
      subst ha
      subst hb
      exact ⟨rfl, rfl, by omega, h4⟩
    · rw [if_neg h12a] at h
      exact absurd h (by simp)
  rw [if_neg h12] at h
  by_cases h13 : (c == 102) = true
  · rw [if_pos h13] at h
    by_cases h13a : (i + 5 ≤ data.length &&
        (data.drop i).take 5 == [102, 97, 108, 115, 101]) = true
    · rw [if_pos h13a] at h
      have h5' : i + 5 ≤ data.length := by
        rcases Bool.and_eq_true .. ▸ h13a with ⟨hx, _⟩
        exact of_decide_eq_true hx
      injection h with h'
      injection h' with ha hb
      subst ha
      subst hb
      exact ⟨rfl, rfl, by omega, h5'⟩
    · rw [if_neg h13a] at h
      exact absurd h (by simp)
  rw [if_neg h13] at h
  by_cases h14 : (c == 110) = true
  · rw [if_pos h14] at h
    by_cases h14a : (i + 4 ≤ data.length &&
        (data.drop i).take 4 == [110, 117, 108, 108]) = true
    · rw [if_pos h14a] at h
      have h4 : i + 4 ≤ data.length := by
        rcases Bool.and_eq_true .. ▸ h14a with ⟨hx, _⟩
        exact of_decide_eq_true hx
      injection h with h'
      injection h' with ha hb
      subst ha
      subst hb
      exact ⟨rfl, rfl, by omega, h4⟩
    · rw [if_neg h14a] at h
      exact absurd h (by simp)
  rw [if_neg h14] at h
  by_cases h15 : (c == 45 || isDigit c) = true
  · rw [if_pos h15] at h
    cases hsn : scanNumber data i with
    | error e =>
      rw [hsn] at h
      exact absurd h (by simp)
    | ok k =>
      rw [hsn] at h
      injection h with h'
      injection h' with ha hb
      subst ha
      subst hb
      obtain ⟨hb1, hb2⟩ := scanNumber_bounds data i _ hsn
      exact ⟨rfl, rfl, hb1, hb2⟩
  rw [if_neg h15] at h
  exact absurd h (by simp)

lemma tokLoop_wf (data : List Nat) (hlen : data.length < 4294967296) :
    ∀ (fuel i : Nat) (tokens toks : List Token),
      i ≤ data.length →
      (∀ t ∈ tokens, t.start < t.endPos ∧ t.endPos ≤ data.length) →
      List.Chain' (fun a b => a.endPos ≤ b.start) tokens →
      (∀ t, tokens.getLast? = some t → t.endPos ≤ i) →
      tokLoop data fuel i tokens = .ok toks →
      (∀ t ∈ toks, t.start < t.endPos ∧ t.endPos ≤ data.length) ∧
        List.Chain' (fun a b => a.endPos ≤ b.start) toks := by
  intro fuel
  induction fuel with
  | zero =>
    intro i tokens toks _ _ _ _ h
    rw [tokLoop] at h
    exact absurd h (by simp)
  | succ f ih =>
    intro i tokens toks hi hinv hchain hlast h
    rw [tokLoop] at h
    have hij : i ≤ skipWS data (data.length - i) i := skipWS_ge data _ i
    have hjlen : skipWS data (data.length - i) i ≤ data.length :=
      skipWS_le data _ i hi
    by_cases hend : data.length ≤ skipWS data (data.length - i) i
    · rw [if_pos hend] at h
      injection h with h'
      subst h'
      exact ⟨hinv, hchain⟩
    · rw [if_neg hend] at h
      have hjlt : skipWS data (data.length - i) i < data.length := by omega
      cases htk : nextToken data (lastTokenType tokens)
          (skipWS data (data.length - i) i)
          (data.getD (skipWS data (data.length - i) i) 0) with
      | error e =>
        rw [htk] at h
        exact absurd h (by simp)
      | ok p =>
        obtain ⟨tok, j⟩ := p
        rw [htk] at h
        obtain ⟨hts, hte, hij', hjle⟩ :=
          nextToken_bounds data (lastTokenType tokens)
            (skipWS data (data.length - i) i) hjlt tok j htk
        have hus : tok.start = skipWS data (data.length - i) i := by
          rw [hts, u32]
          exact Nat.mod_eq_of_lt (by omega)
        have hue : tok.endPos = j := by
          rw [hte, u32]
          exact Nat.mod_eq_of_lt (by omega)
        refine ih j (tokens ++ [tok]) toks hjle ?_ ?_ ?_ h
        · intro t ht
          rcases List.mem_append.mp ht with hmem | hmem
          · exact hinv t hmem
          · rw [List.mem_singleton] at hmem
            subst hmem
            rw [hus, hue]
            exact ⟨hij', hjle⟩
        · rw [List.chain'_append]
          refine ⟨hchain, List.chain'_singleton tok, ?_⟩
          intro x hx y hy
          simp only [List.head?_cons, Option.mem_def, Option.some.injEq] at hy
          subst hy
          have hxe : x.endPos ≤ i := hlast x (Option.mem_def.mp hx)
          omega
        · intro t ht
          rw [List.getLast?_concat] at ht
          injection ht with ht'
          subst ht'
          omega

/-- C9 (amended): token Start/End offsets are stored as uint32, so for any
buffer shorter than 2^32 bytes (where the stored offsets equal the true
cursor positions) every token produced by a successful SimpleTokenize
satisfies start < end ≤ len(data), and consecutive tokens are ordered left
to right: each token starts at or after the previous token's end.  For
buffers of 2^32 bytes or more the stored offsets wrap modulo 2^32 and the
bounds fail (see the wrap counterexample below). -/
theorem simpleTokenize_token_bounds_ordered :
    ∀ (data : List Nat) (toks : List Token),
      data.length < 4294967296 →
      SimpleTokenize data = .ok toks →
      (∀ t ∈ toks, t.start < t.endPos ∧ t.endPos ≤ data.length) ∧
        List.Chain' (fun a b => a.endPos ≤ b.start) toks := by
  intro data toks hlen h
  rw [SimpleTokenize] at h
  split at h
  · exact absurd h (by simp)
  · refine tokLoop_wf data hlen (data.length + 1) 0 [] toks (by omega) ?_ ?_ ?_ h
    · intro t ht
      exact absurd ht (by simp)
    · exact List.chain'_nil
    · intro t ht
      exact absurd ht (by simp)

/-- Witness for C9 at the buffer "[1]" (3 bytes, well below 2^32): three
tokens with the expected bounds and ordering. -/
theorem simpleTokenize_token_bounds_ordered_witness :
    (∀ t ∈ ([⟨.TokenArrayBegin, 0, 1⟩, ⟨.TokenNumber, 1, 2⟩,
        ⟨.TokenArrayEnd, 2, 3⟩] : List Token),
      t.start < t.endPos ∧ t.endPos ≤ ([91, 49, 93] : List Nat).length) ∧
      List.Chain' (fun a b => a.endPos ≤ b.start)
        ([⟨.TokenArrayBegin, 0, 1⟩, ⟨.TokenNumber, 1, 2⟩,
          ⟨.TokenArrayEnd, 2, 3⟩] : List Token) :=
  simpleTokenize_token_bounds_ordered [91, 49, 93]
    [⟨.TokenArrayBegin, 0, 1⟩, ⟨.TokenNumber, 1, 2⟩, ⟨.TokenArrayEnd, 2, 3⟩]
    (by decide) rfl

/-- The buffer of 2^32 - 1 space bytes followed by a single '1': its one
number token spans the true offsets [2^32 - 1, 2^32), but the uint32 End
field stores 2^32 mod 2^32 = 0. -/
def wrapBuf : List Nat := List.replicate 4294967295 32 ++ [49]

lemma wrapBuf_length : wrapBuf.length = 4294967296 := by
  rw [wrapBuf, List.length_append, List.length_replicate]
  rfl

lemma wrapBuf_getD_lt (i : Nat) (h : i < 4294967295) : wrapBuf.getD i 0 = 32 := by
  rw [wrapBuf, List.getD_eq_getElem?_getD, List.getElem?_append_left
    (by rw [List.length_replicate]; exact h)]
  rw [List.getElem?_replicate, if_pos h]
  rfl

lemma wrapBuf_getD_last : wrapBuf.getD 4294967295 0 = 49 := by
  rw [wrapBuf, List.getD_eq_getElem?_getD, List.getElem?_append_right
    (by rw [List.length_replicate])]
  rw [List.length_replicate]
  rfl

lemma wrapBuf_drop : wrapBuf.drop 4294967295 = [49] := by
  rw [wrapBuf]
  exact List.drop_left' (by rw [List.length_replicate])

lemma skipWS_wrapBuf : ∀ (fuel i : Nat), 4294967295 < i + fuel →
    i ≤ 4294967295 → skipWS wrapBuf fuel i = 4294967295 := by
  intro fuel
  induction fuel with
  | zero =>
    intro i h1 h2
    omega
  | succ f ih =>
    intro i h1 h2
    rw [skipWS]
    by_cases hi : i < 4294967295
    · rw [wrapBuf_getD_lt i hi, wrapBuf_length]
      have hc : (decide (i < 4294967296) && isWhitespace 32) = true := by
        rw [decide_eq_true (by omega)]
        rfl
      rw [hc, if_pos rfl]
      exact ih (i + 1) (by omega) (by omega)
    · have hieq : i = 4294967295 := by omega
      subst hieq
      rw [wrapBuf_getD_last]
      have hc : (decide (4294967295 < wrapBuf.length) && isWhitespace 49)
          = false := by
        rw [show isWhitespace 49 = false from rfl, Bool.and_false]
      rw [hc]
      simp only [Bool.false_eq_true, if_false]

lemma scanNumber_wrapBuf : scanNumber wrapBuf 4294967295 = .ok 4294967296 := by
  have hdig : digitRun wrapBuf 4294967295 = 1 := by
    rw [digitRun, wrapBuf_drop]
    rfl
  rw [scanNumber, wrapBuf_getD_last]
  simp only [show ((49 : Nat) == 45) = false from rfl, Bool.false_eq_true,
    if_false]
  rw [scanIntPart, wrapBuf_length, wrapBuf_getD_last]
  simp only [show (decide ((4294967296 : Nat) ≤ 4294967295)) = false from rfl,
    show isDigit 49 = true from rfl, Bool.not_true, Bool.or_false,
    show ((49 : Nat) == 48) = false from rfl, Bool.false_eq_true, if_false]
  rw [hdig, show (4294967295 : Nat) + 1 = 4294967296 from rfl]
  rw [scanFrac, wrapBuf_length]
  simp only [show (decide ((4294967296 : Nat) < 4294967296)) = false from rfl,
    Bool.false_and, Bool.false_eq_true, if_false]
  rw [scanExp, wrapBuf_length]
  simp only [show (decide ((4294967296 : Nat) < 4294967296)) = false from rfl,
    Bool.false_and, Bool.false_eq_true, if_false]
  rw [scanNumEnd, wrapBuf_getD_last]
  simp only [show (decide ((4294967296 : Nat) ≤ 4294967295)) = false from rfl,
    show ((4294967295 : Nat) == 4294967296 - 1) = true from rfl,
    show ((49 : Nat) == 45) = false from rfl, Bool.true_and, Bool.or_false,
    Bool.false_eq_true, if_false]

lemma nextToken_wrapBuf :
    nextToken wrapBuf .TokenNone 4294967295 49
      = .ok (⟨.TokenNumber, 4294967295, 0⟩, 4294967296) := by
  rw [nextToken, scanNumber_wrapBuf]
  simp only [show (TokenType.TokenNone == TokenType.TokenColon) = false from
      rfl,
    show (TokenType.TokenNone == TokenType.TokenComma) = false from rfl,
    Bool.false_and, Bool.false_eq_true, if_false,
    show ((49 : Nat) == 123) = false from rfl,
    show ((49 : Nat) == 125) = false from rfl,
    show ((49 : Nat) == 91) = false from rfl,
    show ((49 : Nat) == 93) = false from rfl,
    show ((49 : Nat) == 58) = false from rfl,
    show ((49 : Nat) == 44) = false from rfl,
    show ((49 : Nat) == 34) = false from rfl,
    show ((49 : Nat) == 116) = false from rfl,
    show ((49 : Nat) == 102) = false from rfl,
    show ((49 : Nat) == 110) = false from rfl,
    show ((49 : Nat) == 45) = false from rfl,
    show isDigit 49 = true from rfl, Bool.false_or, if_true]
  rfl

/-- C9 counterexample: on the buffer of 2^32 - 1 spaces followed by '1',
SimpleTokenize succeeds, but its single number token has the uint32-wrapped
End offset 0 while Start is 2^32 - 1, so the claimed start < end ≤ len(data)
bound fails for this token. -/
theorem simpleTokenize_offset_wrap :
    SimpleTokenize wrapBuf = .ok [⟨.TokenNumber, 4294967295, 0⟩] ∧
      ¬ ∀ toks : List Token, SimpleTokenize wrapBuf = .ok toks →
          ∀ t ∈ toks, t.start < t.endPos ∧ t.endPos ≤ wrapBuf.length := by
  have hlen := wrapBuf_length
  have hskip0 : skipWS wrapBuf (wrapBuf.length - 0) 0 = 4294967295 :=
    skipWS_wrapBuf _ 0 (by omega) (by omega)
  have hstep2 : tokLoop wrapBuf 4294967296 4294967296
      [⟨.TokenNumber, 4294967295, 0⟩] = .ok [⟨.TokenNumber, 4294967295, 0⟩] := by
    rw [show (4294967296 : Nat) = 4294967295 + 1 from rfl, tokLoop]
    rw [show wrapBuf.length - (4294967295 + 1) = 0 from by omega, skipWS]
    rw [if_pos (by omega)]
  have hmain : SimpleTokenize wrapBuf = .ok [⟨.TokenNumber, 4294967295, 0⟩] := by
    rw [SimpleTokenize]
    rw [show (wrapBuf.length == 0) = false from by rw [hlen]; rfl]
    simp only [Bool.false_eq_true, if_false]
    rw [hlen, tokLoop, hskip0]
    rw [if_neg (by omega)]
    rw [show lastTokenType [] = TokenType.TokenNone from rfl]
    rw [wrapBuf_getD_last, nextToken_wrapBuf]
    exact hstep2
  refine ⟨hmain, fun hall => ?_⟩
  have hbad := (hall _ hmain ⟨.TokenNumber, 4294967295, 0⟩
    (List.mem_singleton.mpr rfl)).1
  have hbad' : (4294967295 : Nat) < 0 := hbad
  omega

end SimdJsonGo
